import Mathlib

/-!
Verification of the filtering / deduplication / scoring / persistence core of
the tensr-signal-agent pipeline against its natural-language specification.

The Python source is shallowly embedded as follows.

* Python strings are lists of Unicode code points (`Str := List Nat`);
  `str.strip`, `str.lower`, `str.replace`, substring tests and lexicographic
  comparison are modelled character-by-character (ASCII case folding and the
  four common whitespace characters, which is what the repository's data uses).
* Python dicts holding signals are modelled by a structure `Signal` whose
  fields are `Option`-valued: `none` models an absent key (or a `None` value
  where the code treats the two alike via `dict.get`).
* The `score_breakdown` dict is an insertion-ordered association list
  `Breakdown := List (Str × Block)`; assignment replaces in place or appends,
  exactly like CPython dict assignment.
* Python floats are modelled as exact rationals (`ℚ`); `int(...)` is
  truncation toward zero and `round(...)` is round-half-to-even.
* `datetime` values are rationals counting days in the proleptic Gregorian
  calendar (`dateOrdinal` is `date.toordinal`); `datetime.now()` becomes an
  explicit parameter `now : ℚ`, and `timedelta(days=k)` is subtraction of `k`.
* The SQLite store is a structure `DB` of run rows and signal rows with
  autoincrement counters; SQL `=` on nullable columns is three-valued
  (`NULL` never matches) and `COALESCE(x, '')` is `Option.getD`.
* Logging (`print`) and the debug-only `profile_weighted_breakdown` /
  `profile_thresholds` annotations written back onto scored signals are not
  modelled; no claim mentions them.
-/

/-! ## Python string model -/

abbrev Str := List Nat

def strN (s : String) : Str := s.toList.map Char.toNat

/-- Whitespace test for the code points Python's `str.strip` removes in this
data set: space, tab, carriage return, newline. -/
def isWsCh (c : Nat) : Bool := c == 32 || c == 9 || c == 13 || c == 10

/-- ASCII lower-casing of one code point, as `str.lower` acts on the
repository's ASCII identifiers. -/
def lowerCh (c : Nat) : Nat := if 65 ≤ c ∧ c ≤ 90 then c + 32 else c

def ftrim (s : Str) : Str := s.dropWhile isWsCh

def rtrim (s : Str) : Str := (s.reverse.dropWhile isWsCh).reverse

/-- Model of Python `str.strip()`. -/
def pyStrip (s : Str) : Str := rtrim (ftrim s)

/-- Model of Python `str.lower()`. -/
def pyLower (s : Str) : Str := s.map lowerCh

/-- Shared `.strip().lower()` normalisation used throughout the source. -/
def normTok (s : Str) : Str := pyLower (pyStrip s)

/-- Model of Python `needle in haystack` (substring containment). -/
def strContains (hay needle : Str) : Bool :=
  match hay with
  | [] => needle.isEmpty
  | _ :: rest => needle.isPrefixOf hay || strContains rest needle

/-- Index of the first occurrence of `needle` in `hay` (Python `str.find`,
restricted to the case where the needle occurs). -/
def strFind (hay needle : Str) : Nat :=
  match hay with
  | [] => 0
  | _ :: rest => if needle.isPrefixOf hay then 0 else strFind rest needle + 1

/-- Model of Python `str.replace(pat, rep)`: non-overlapping, left to right.
The patterns used by the source are always non-empty. -/
def pyReplace (pat rep : Str) (s : Str) : Str :=
  match s with
  | [] => []
  | c :: rest =>
    if h : pat ≠ [] ∧ pat.isPrefixOf (c :: rest) then
      rep ++ pyReplace pat rep ((c :: rest).drop pat.length)
    else
      c :: pyReplace pat rep rest
termination_by s.length
decreasing_by
  · simp only [List.length_drop, List.length_cons]
    have hp : 0 < pat.length := List.length_pos.mpr h.1
    omega
  · simp only [List.length_cons]
    omega

/-- Lexicographic strict order on code-point lists (Python `str` `<`). -/
def strLt : Str → Str → Bool
  | [], [] => false
  | [], _ :: _ => true
  | _ :: _, [] => false
  | a :: as, b :: bs => if a < b then true else if b < a then false else strLt as bs

/-! ## Data model: signals, score blocks, breakdowns -/

/-- One entry of a `score_breakdown` dict: `{"category": ..., "points": ...,
["seniority_inferred": ...]}`.  A missing `seniority_inferred` key is read by
the source through `.get(..., False)`, so it is modelled as the field being
`false`. -/
structure Block where
  category : Str
  points : ℚ
  seniority_inferred : Bool
deriving DecidableEq

/-- Insertion-ordered dict from component names to score blocks. -/
abbrev Breakdown := List (Str × Block)

/-- Dict lookup `breakdown.get(k)`. -/
def bdGet (b : Breakdown) (k : Str) : Option Block :=
  (b.find? (fun p => p.1 == k)).map (fun p => p.2)

/-- Dict assignment `breakdown[k] = v`: replace in place if the key exists,
else append (CPython dict semantics). -/
def bdSet (b : Breakdown) (k : Str) (v : Block) : Breakdown :=
  if (b.find? (fun p => p.1 == k)).isSome then
    b.map (fun p => if p.1 == k then (k, v) else p)
  else
    b ++ [(k, v)]

/-- A candidate business-event record (a Python dict).  `none` models the key
being absent / `None`. -/
structure Signal where
  institution : Option Str
  country : Option Str
  region : Option Str
  signal_type : Option Str
  signal_date : Option Str
  domain : Option Str
  institution_tier : Option Str
  institution_type : Option Str
  seniority : Option Str
  source_url : Option Str
  summary : Option Str
  run_timestamp : Option Str
  regional_keyword_match : Option Str
  score_breakdown : Breakdown
  total_score : Option ℚ
  priority_tier : Option Str
deriving DecidableEq

/-- An all-absent signal, convenient for building concrete test records. -/
def emptySignal : Signal :=
  { institution := none, country := none, region := none, signal_type := none
  , signal_date := none, domain := none, institution_tier := none
  , institution_type := none, seniority := none, source_url := none
  , summary := none, run_timestamp := none, regional_keyword_match := none
  , score_breakdown := [], total_score := none, priority_tier := none }

/-! ## database.py: de-duplication fingerprint -/

/-- Model of `database.signal_fingerprint` (database.py lines 118-127). -/
def signal_fingerprint (sig : Signal) : Str :=
  let institution := normTok (sig.institution.getD [])
  let signal_type := normTok (sig.signal_type.getD [])
  let signal_date := normTok (sig.signal_date.getD [])
  let source_url := normTok (sig.source_url.getD [])
  if source_url ≠ [] then
    strN "url::" ++ source_url
  else
    strN "triple::" ++ institution ++ [124] ++ signal_type ++ [124] ++ signal_date

/-- Modelled from the spec (§4.1 Fingerprint Index): "If `source_url` is
present and non-blank, returns `url::` + normalized(source_url); otherwise
returns `triple::` + normalized(institution) + `|` + normalized(signal_type)
+ `|` + normalized(signal_date), where normalized = trim + lowercase."  Used
only as the comparison target of the C2 refinement theorem. -/
def fingerprintSpec (sig : Signal) : Str :=
  let normalized := fun (s : Str) => (pyStrip s).map lowerCh
  match sig.source_url with
  | some u =>
    if pyStrip u ≠ [] then
      strN "url::" ++ normalized u
    else
      strN "triple::" ++ normalized (sig.institution.getD []) ++ [124]
        ++ normalized (sig.signal_type.getD []) ++ [124]
        ++ normalized (sig.signal_date.getD [])
  | none =>
    strN "triple::" ++ normalized (sig.institution.getD []) ++ [124]
      ++ normalized (sig.signal_type.getD []) ++ [124]
      ++ normalized (sig.signal_date.getD [])

/-! ## signal_scout.py: dedupe policy (lines 586-635) -/

/-- Partition of a batch into unseen/seen after collapsing intra-batch
duplicate fingerprints (first occurrence kept), mirroring the loop of
`apply_dedupe_policy`.  `existingFps` stands for
`database.get_existing_fingerprints()` and `batchFps` for the running
`batch_fps` set. -/
def dedupePartition (existingFps : List Str) : List Signal → List Str → List Signal × List Signal
  | [], _ => ([], [])
  | sig :: rest, batchFps =>
    let fp := signal_fingerprint sig
    if fp ∈ batchFps then
      dedupePartition existingFps rest batchFps
    else
      let p := dedupePartition existingFps rest (fp :: batchFps)
      if fp ∈ existingFps then (p.1, sig :: p.2) else (sig :: p.1, p.2)

/-- Model of `apply_dedupe_policy` (signal_scout.py lines 586-635).  The DB
read `database.get_existing_fingerprints()` is passed in as `existingFps`. -/
def apply_dedupe_policy (existingFps : List Str) (signals : List Signal)
    (dedupe_policy : Str) (min_count : ℤ) : List Signal :=
  let p := dedupePartition existingFps signals []
  let unseen := p.1
  let seen := p.2
  let policy := normTok (if dedupe_policy.isEmpty then strN "prefer_new" else dedupe_policy)
  if policy = strN "exclude_seen" then
    if (unseen.length : ℤ) < min_count then
      unseen ++ seen.take (max 0 (min_count - unseen.length)).toNat
    else unseen
  else if policy = strN "allow_seen" then
    unseen ++ seen
  else
    if (unseen.length : ℤ) < min_count then
      unseen ++ seen.take (max 0 (min_count - unseen.length)).toNat
    else unseen

/-! ## Dates: `strptime("%Y-%m-%d"/"%Y-%m")` and proleptic Gregorian ordinals -/

structure Date where
  year : Nat
  month : Nat
  day : Nat
deriving DecidableEq

def isLeapYear (y : Nat) : Bool := y % 4 == 0 && (y % 100 != 0 || y % 400 == 0)

def daysInMonth (y m : Nat) : Nat :=
  if m = 2 then (if isLeapYear y then 29 else 28)
  else if m = 4 ∨ m = 6 ∨ m = 9 ∨ m = 11 then 30
  else 31

def daysBeforeMonth (y m : Nat) : Nat :=
  let base :=
    if m = 1 then 0 else if m = 2 then 31 else if m = 3 then 59
    else if m = 4 then 90 else if m = 5 then 120 else if m = 6 then 151
    else if m = 7 then 181 else if m = 8 then 212 else if m = 9 then 243
    else if m = 10 then 273 else if m = 11 then 304 else 334
  if 2 < m ∧ isLeapYear y then base + 1 else base

/-- Proleptic Gregorian ordinal (Python `date.toordinal`; 0001-01-01 ↦ 1). -/
def dateOrdinal (d : Date) : ℤ :=
  365 * ((d.year : ℤ) - 1) + ((d.year : ℤ) - 1) / 4 - ((d.year : ℤ) - 1) / 100
    + ((d.year : ℤ) - 1) / 400 + (daysBeforeMonth d.year d.month : ℤ) + (d.day : ℤ)

def isDigitCh (c : Nat) : Bool := 48 ≤ c && c ≤ 57

def digitsToNat (s : Str) : Nat := s.foldl (fun a c => 10 * a + (c - 48)) 0

/-- Split on the code point `-` (45), keeping empty chunks, as the `%Y-%m-%d`
format string slices its input. -/
def splitDash : Str → List Str
  | [] => [[]]
  | c :: rest =>
    match splitDash rest with
    | [] => [[]]
    | p :: ps => if c = 45 then [] :: p :: ps else (c :: p) :: ps

/-- Numeric field test for one `strptime` directive: all digits, with length
bounds taken from CPython's `_strptime` regular expressions (`%Y` is exactly
four digits, `%m` and `%d` are one or two digits). -/
def fieldOk (s : Str) (lo hi : Nat) : Bool :=
  s.all isDigitCh && lo ≤ s.length && s.length ≤ hi

/-- The `%Y-%m-%d` path: field shapes from CPython's `_strptime` regular
expressions, then the `datetime` constructor's range checks. -/
def parseYMD (y m d : Str) : Option Date :=
  if fieldOk y 4 4 && fieldOk m 1 2 && fieldOk d 1 2 then
    let yv := digitsToNat y
    let mv := digitsToNat m
    let dv := digitsToNat d
    if 1 ≤ yv ∧ (1 ≤ mv ∧ mv ≤ 12) ∧ (1 ≤ dv ∧ dv ≤ daysInMonth yv mv) then
      some ⟨yv, mv, dv⟩
    else none
  else none

/-- The `%Y-%m` path (day defaults to 1). -/
def parseYM (y m : Str) : Option Date :=
  if fieldOk y 4 4 && fieldOk m 1 2 then
    let yv := digitsToNat y
    let mv := digitsToNat m
    if 1 ≤ yv ∧ 1 ≤ mv ∧ mv ≤ 12 then some ⟨yv, mv, 1⟩ else none
  else none

/-- Model of `datetime.strptime(s, "%Y-%m-%d")` followed on failure by
`datetime.strptime(s, "%Y-%m")` (no stripping), as in
`signal_scout.filter_old_signals` (lines 568-573).  Returns `none` on any
`ValueError`/`TypeError`, including out-of-range month/day and year 0. -/
def parseDateStrict (s : Str) : Option Date :=
  match splitDash s with
  | [y, m, d] => parseYMD y m d
  | [y, m] => parseYM y m
  | _ => none

/-- Model of `signal_scorer.parse_signal_date` (lines 122-132): empty input is
`None`, otherwise the input is stripped before the same two formats are
tried. -/
def parse_signal_date (s : Str) : Option Date := parseDateStrict (pyStrip s)

/-! ## signal_scorer.py: point tables, recency, overrides, weighted totals -/

/-- Python `dict.get(k, default)` over a literal score table. -/
def dictLookup (l : List (Str × ℚ)) (k : Str) (dflt : ℚ) : ℚ :=
  ((l.find? (fun p => p.1 == k)).map (fun p => p.2)).getD dflt

/-- The `ACTION_TYPE_SCORES` dict (signal_scorer.py lines 57-66). -/
def ACTION_TYPE_SCORES : List (Str × ℚ) :=
  [ (strN "launch", 30), (strN "filing", 25), (strN "pilot", 22), (strN "hire", 20)
  , (strN "partnership", 15), (strN "investment", 10), (strN "conference", 10)
  , (strN "other", 5) ]

/-- Model of `ACTION_TYPE_SCORES.get(t, 5)`. -/
def actionTypeScore (t : Str) : ℚ := dictLookup ACTION_TYPE_SCORES t 5

/-- The `SENIORITY_SCORES` dict (lines 68-82). -/
def SENIORITY_SCORES : List (Str × ℚ) :=
  [ (strN "c-suite", 20), (strN "md", 20), (strN "c-suite / md", 20), (strN "c-suite/md", 20)
  , (strN "vp", 15), (strN "director", 15), (strN "vp/director", 15), (strN "vp / director", 15)
  , (strN "senior", 10), (strN "manager", 10), (strN "senior/manager", 10)
  , (strN "senior / manager", 10), (strN "unknown", 5) ]

/-- Model of `SENIORITY_SCORES.get(s, 5)`. -/
def seniorityScore (s : Str) : ℚ := dictLookup SENIORITY_SCORES s 5

/-- The `DOMAIN_FIT_SCORES` dict (lines 84-92). -/
def DOMAIN_FIT_SCORES : List (Str × ℚ) :=
  [ (strN "stablecoin", 25), (strN "digital_assets", 22), (strN "agentic_automation", 20)
  , (strN "ai_implementation", 16), (strN "ai_compliance_risk", 18)
  , (strN "ai_transformation", 14), (strN "other", 5) ]

/-- Model of `DOMAIN_FIT_SCORES.get(d, 5)`. -/
def domainFitScore (d : Str) : ℚ := dictLookup DOMAIN_FIT_SCORES d 5

/-- The `INSTITUTION_SCORES` dict (lines 94-100). -/
def INSTITUTION_SCORES : List (Str × ℚ) :=
  [ (strN "series a+ fintech", 15), (strN "regional/community bank", 12)
  , (strN "regional / community bank", 12), (strN "mid-tier bank", 8), (strN "unknown", 5) ]

/-- Model of `INSTITUTION_SCORES.get(t, 5)`. -/
def institutionScore (t : Str) : ℚ := dictLookup INSTITUTION_SCORES t 5

/-- The `COMPONENT_MAX` dict (lines 102-108). -/
def COMPONENT_MAX : List (Str × ℚ) :=
  [ (strN "action_type", 30), (strN "seniority", 20), (strN "domain_fit", 25)
  , (strN "institution_accessibility", 15), (strN "recency", 10) ]

/-- Model of `COMPONENT_MAX.get(k, 100)` (as a float). -/
def componentMax (k : Str) : ℚ := dictLookup COMPONENT_MAX k 100

/-- Membership of `k` in the `COMPONENT_MAX` dict (needed because the source
distinguishes `component and ...` from the default branch). -/
def aliasComponent (k : Str) : Option Str :=
  if k = strN "action_strength" then some (strN "action_type")
  else if k = strN "action_type" then some (strN "action_type")
  else if k = strN "buyer_fit" then some (strN "institution_accessibility")
  else if k = strN "institution_accessibility" then some (strN "institution_accessibility")
  else if k = strN "institution_fit" then some (strN "institution_accessibility")
  else if k = strN "domain_fit" then some (strN "domain_fit")
  else if k = strN "seniority" then some (strN "seniority")
  else if k = strN "recency" then some (strN "recency")
  else none

/-- Model of `score_recency` (signal_scorer.py lines 135-169).  `now` stands
for `datetime.now()`; `(today - parsed).days` is the floor of the rational
day difference, which is what `timedelta.days` computes. -/
def score_recency (now : ℚ) (signal_date_str : Str) : Block :=
  match parse_signal_date signal_date_str with
  | none => { category := strN "unknown", points := 0, seniority_inferred := false }
  | some d =>
    let days_old : ℤ := (now - (dateOrdinal d : ℚ)).floor
    if days_old < 30 then { category := strN "<30 days", points := 10, seniority_inferred := false }
    else if days_old ≤ 90 then { category := strN "30-90 days", points := 7, seniority_inferred := false }
    else if days_old ≤ 180 then { category := strN "90-180 days", points := 4, seniority_inferred := false }
    else if days_old ≤ 365 then { category := strN "180-365 days", points := 2, seniority_inferred := false }
    else { category := strN ">365 days", points := 0, seniority_inferred := false }

/-- Model of `apply_seniority_override` (signal_scorer.py lines 172-211). -/
def apply_seniority_override (signal : Signal) (breakdown : Breakdown) : Breakdown :=
  let sig_type := pyLower (signal.signal_type.getD [])
  let domain := pyLower (signal.domain.getD [])
  let seniority := pyLower (signal.seniority.getD [])
  if sig_type = strN "partnership"
      ∧ (domain = strN "stablecoin" ∨ domain = strN "digital_assets")
      ∧ seniority = strN "unknown" then
    bdSet breakdown (strN "seniority")
      { category := strN "inferred (strategic partnership)", points := 15, seniority_inferred := true }
  else if sig_type = strN "launch"
      ∧ (domain = strN "stablecoin" ∨ domain = strN "digital_assets")
      ∧ seniority = strN "unknown" then
    bdSet breakdown (strN "seniority")
      { category := strN "inferred (strategic launch)", points := 12, seniority_inferred := true }
  else breakdown

/-! ### Scoring profiles (pipeline_profile.py) -/

structure RankingCategory where
  key : Str
  label : Str
  weight : ℤ
  description : Str
deriving DecidableEq

structure Thresholds where
  hot : ℤ
  warm : ℤ
  nurture : ℤ
deriving DecidableEq

structure RankingConfig where
  categories : List RankingCategory
  priority_thresholds : Thresholds
deriving DecidableEq

/-- Validity of a `RankingConfig` under the pydantic validators of
pipeline_profile.py (lines 20-52): per-category weight bounds, at most five
categories, unique keys, weights summing to 100, and strictly decreasing
thresholds. -/
def ValidRanking (cfg : RankingConfig) : Prop :=
  cfg.categories.length ≤ 5
  ∧ (∀ c ∈ cfg.categories, 0 ≤ c.weight ∧ c.weight ≤ 100)
  ∧ (cfg.categories.map (fun c => c.key)).Nodup
  ∧ (cfg.categories.map (fun c => c.weight)).sum = 100
  ∧ cfg.priority_thresholds.warm < cfg.priority_thresholds.hot
  ∧ cfg.priority_thresholds.nurture < cfg.priority_thresholds.warm
  ∧ 0 ≤ cfg.priority_thresholds.nurture

instance (cfg : RankingConfig) : Decidable (ValidRanking cfg) := by
  unfold ValidRanking
  infer_instance

/-! ### Python numeric conversions -/

/-- Computable floor of a rational. -/
def ratFloor (q : ℚ) : ℤ := q.num.fdiv q.den

/-- Model of Python `int(x)`: truncation toward zero. -/
def pyInt (q : ℚ) : ℤ := q.num.tdiv q.den

/-- Model of Python 3 `round(x)`: round half to even. -/
def pyRound (q : ℚ) : ℤ :=
  let f := ratFloor q
  let r := q - (f : ℚ)
  if r < 1 / 2 then f
  else if 1 / 2 < r then f + 1
  else if f % 2 = 0 then f else f + 1

/-- Raw points and max points resolved for one ranking category, following
`_profile_weighted_total`'s branch structure (lines 226-239). -/
def categoryRawMax (breakdown : Breakdown) (key : Str) : ℚ × ℚ :=
  match aliasComponent key with
  | some comp =>
    match bdGet breakdown comp with
    | some block => (block.points, componentMax comp)
    | none =>
      match bdGet breakdown key with
      | some block => (block.points, componentMax key)
      | none => (50, 100)
  | none =>
    match bdGet breakdown key with
    | some block => (block.points, componentMax key)
    | none => (50, 100)

/-- Weighted contribution of one ranking category (lines 223-243):
`clamp(raw/max) * weight`, with `normalized = 0` when `max ≤ 0`. -/
def categoryContribution (breakdown : Breakdown) (cat : RankingCategory) : ℚ :=
  let key := normTok cat.key
  let rm := categoryRawMax breakdown key
  let normalized := if rm.2 ≤ 0 then 0 else max 0 (min 1 (rm.1 / rm.2))
  normalized * (cat.weight : ℚ)

/-- Model of `_profile_weighted_total` (signal_scorer.py lines 214-257),
returning the rounded weighted total.  The parallel `weighted_breakdown`
debug dict it also returns is not modelled. -/
def profile_weighted_total (breakdown : Breakdown) (ranking_cfg : RankingConfig) : ℤ :=
  pyRound (ranking_cfg.categories.foldl (fun acc cat => acc + categoryContribution breakdown cat) 0)

/-- Model of `_tier_from_thresholds` (lines 260-270). -/
def tier_from_thresholds (total : ℤ) (thresholds : Thresholds) : Str :=
  if thresholds.hot ≤ total then strN "HOT"
  else if thresholds.warm ≤ total then strN "WARM"
  else if thresholds.nurture ≤ total then strN "NURTURE"
  else strN "HOLD"

/-- Sum of `points` over all breakdown entries, as the fallback
`int(sum(cat.get("points", 0) ...))` computes (every modelled block carries a
`points` key, cf. the `Block` docstring). -/
def breakdownPointsSum (b : Breakdown) : ℚ := (b.map (fun p => p.2.points)).sum

/-- The breakdown mutations of `rescore_signal` (signal_scorer.py lines
276-306): overwrite the five fixed components (action type, seniority with
its override, domain fit, institution accessibility, recency) on top of the
signal's incoming `score_breakdown`. -/
def rescoreBreakdown (now : ℚ) (signal : Signal) : Breakdown :=
  let b0 := signal.score_breakdown
  let sig_type := pyLower (signal.signal_type.getD (strN "other"))
  let b1 := bdSet b0 (strN "action_type")
    { category := sig_type, points := actionTypeScore sig_type, seniority_inferred := false }
  let seniority_raw := pyLower (signal.seniority.getD (strN "unknown"))
  let b2 := bdSet b1 (strN "seniority")
    { category := seniority_raw, points := seniorityScore seniority_raw, seniority_inferred := false }
  let b3 := apply_seniority_override signal b2
  let domain_raw := pyLower (signal.domain.getD (strN "other"))
  let b4 := bdSet b3 (strN "domain_fit")
    { category := domain_raw, points := domainFitScore domain_raw, seniority_inferred := false }
  let inst_type_raw := pyLower (signal.institution_type.getD (strN "unknown"))
  let b5 := bdSet b4 (strN "institution_accessibility")
    { category := inst_type_raw, points := institutionScore inst_type_raw, seniority_inferred := false }
  bdSet b5 (strN "recency") (score_recency now (signal.signal_date.getD []))

/-- Model of `rescore_signal` (signal_scorer.py lines 273-333).
`profile_ranking` stands for `(profile_config or {}).get("ranking")`; `now`
for `datetime.now()` inside `score_recency`.  The debug-only
`profile_weighted_breakdown` / `profile_thresholds` / `outreach_angle`
mutations are not modelled (no modelled field corresponds to them). -/
def rescore_signal (now : ℚ) (profile_ranking : Option RankingConfig) (signal : Signal) : Signal :=
  let b6 := rescoreBreakdown now signal
  match profile_ranking with
  | some cfg =>
    if cfg.categories ≠ [] then
      let total := profile_weighted_total b6 cfg
      let tier := tier_from_thresholds total cfg.priority_thresholds
      { signal with score_breakdown := b6, total_score := some (total : ℚ), priority_tier := some tier }
    else
      let total := pyInt (breakdownPointsSum b6)
      let tier :=
        if 80 ≤ total then strN "HOT" else if 60 ≤ total then strN "WARM"
        else if 40 ≤ total then strN "NURTURE" else strN "HOLD"
      { signal with score_breakdown := b6, total_score := some (total : ℚ), priority_tier := some tier }
  | none =>
    let total := pyInt (breakdownPointsSum b6)
    let tier :=
      if 80 ≤ total then strN "HOT" else if 60 ≤ total then strN "WARM"
      else if 40 ≤ total then strN "NURTURE" else strN "HOLD"
    { signal with score_breakdown := b6, total_score := some (total : ℚ), priority_tier := some tier }

/-! ## signal_scout.py: keyword tables -/

def tier1Institutions : List Str :=
  [ strN "goldman sachs", strN "jp morgan", strN "jpmorgan", strN "citigroup", strN "citi"
  , strN "bank of america", strN "wells fargo", strN "hsbc", strN "barclays", strN "bnp paribas"
  , strN "deutsche bank", strN "credit suisse", strN "ubs", strN "societe generale"
  , strN "morgan stanley", strN "blackrock", strN "fidelity", strN "vanguard"
  , strN "microsoft", strN "apple", strN "google", strN "alphabet", strN "meta", strN "amazon", strN "aws"
  , strN "mckinsey", strN "boston consulting group", strN "bcg", strN "bain", strN "deloitte"
  , strN "pwc", strN "pricewaterhousecoopers", strN "kpmg", strN "ernst & young", strN "ey"
  , strN "accenture" ]

def largeEnterpriseExclusions : List Str :=
  [ strN "adobe", strN "lenovo", strN "oracle", strN "sap", strN "ibm", strN "cisco"
  , strN "salesforce", strN "servicenow", strN "workday", strN "intel", strN "amd"
  , strN "nvidia", strN "dell", strN "hp", strN "hewlett packard", strN "hpe"
  , strN "vmware", strN "palantir", strN "snowflake", strN "databricks" ]

def cryptoPrimaryKeywords : List Str :=
  [ strN "cryptocurrency", strN "crypto exchange", strN "nft marketplace", strN "web3 protocol"
  , strN "defi protocol", strN "bitcoin miner", strN "crypto wallet provider"
  , strN "token launchpad", strN "crypto trading platform" ]

def aiNativeInstitutionKeywords : List Str :=
  [ strN "openai", strN "anthropic", strN "cohere", strN "mistral ai", strN "hugging face"
  , strN "stability ai", strN "midjourney", strN "perplexity", strN "character.ai"
  , strN "xai", strN "deepmind" ]

def aiNativeSelfPatterns : List Str :=
  [ strN "is an ai startup", strN "is a ai startup", strN "is an artificial intelligence startup"
  , strN "is an ai company", strN "is a generative ai company", strN "is an llm company"
  , strN "builds ai models", strN "develops ai models", strN "develops foundation models"
  , strN "builds foundation models", strN "llm provider", strN "model provider"
  , strN "model lab", strN "ai lab", strN "ai platform provider", strN "ai software vendor"
  , strN "offers ai software", strN "sells ai software", strN "ai-native company" ]

def aiPriorityDomains : List Str :=
  [ strN "ai_transformation", strN "ai_implementation", strN "agentic_automation"
  , strN "ai_compliance_risk" ]

/-- Model of the `_AI_DOMAIN_SYNONYMS` dict lookup with identity default. -/
def aiDomainSynonym (d : Str) : Str :=
  if d = strN "ai implementation" then strN "ai_implementation"
  else if d = strN "ai_implementation" then strN "ai_implementation"
  else if d = strN "enterprise_ai_implementation" then strN "ai_implementation"
  else if d = strN "agentic automation" then strN "agentic_automation"
  else if d = strN "agentic_automation" then strN "agentic_automation"
  else if d = strN "ai_agents" then strN "agentic_automation"
  else if d = strN "automation_agents" then strN "agentic_automation"
  else if d = strN "ai transformation" then strN "ai_transformation"
  else if d = strN "ai_transformation" then strN "ai_transformation"
  else if d = strN "ai_compliance_risk" then strN "ai_compliance_risk"
  else d

def aiHintKeywords : List Str :=
  [ strN "agentic", strN "ai agent", strN "llm", strN "copilot", strN "genai"
  , strN "generative ai", strN "enterprise ai", strN "ai transformation"
  , strN "ai rollout", strN "ai implementation", strN "workflow automation"
  , strN "intelligent automation" ]

def nonCompanyTokens : List Str :=
  [ strN "region", strN "country", strN "ministry", strN "government", strN "agency"
  , strN "department", strN "authority", strN "municipality", strN "city council"
  , strN "county council", strN "national bank", strN "central bank", strN "public sector"
  , strN "state", strN "federal", strN "parliament", strN "university", strN "school"
  , strN "hospital", strN "ngo", strN "foundation", strN "association"
  , strN "organization", strN "organisation" ]

def genericInstitutionNouns : List Str :=
  [ strN "enterprise", strN "enterprises", strN "business", strN "businesses"
  , strN "company", strN "companies", strN "customer", strN "customers"
  , strN "client", strN "clients", strN "executive", strN "executives"
  , strN "employee", strN "employees", strN "retailer", strN "retailers"
  , strN "manufacturer", strN "manufacturers", strN "institution", strN "institutions"
  , strN "sector", strN "industry", strN "industries", strN "market", strN "markets"
  , strN "organization", strN "organizations", strN "organisation", strN "organisations" ]

def institutionFillerWords : List Str :=
  [ strN "the", strN "and", strN "of", strN "in", strN "for", strN "to", strN "from"
  , strN "across", strN "global", strN "regional", strN "national", strN "international"
  , strN "local", strN "middle", strN "east", strN "eastern", strN "europe", strN "africa"
  , strN "gcc", strN "emea", strN "uk", strN "uae" ]

def companyHintTokens : List Str :=
  [ strN "inc", strN "corp", strN "corporation", strN "co", strN "company", strN "ltd"
  , strN "limited", strN "llc", strN "plc", strN "group", strN "sa", strN "ag", strN "nv"
  , strN "spa", strN "gmbh", strN "srl", strN "oyj", strN "asa", strN "ab", strN "holding"
  , strN "holdings", strN "technologies", strN "technology", strN "systems"
  , strN "solutions", strN "bank" ]

/-- Country keys of `COUNTRY_KEYWORDS` (signal_scout.py lines 118-134). -/
def countryNames : List Str :=
  [ strN "saudi arabia", strN "uae", strN "qatar", strN "kuwait", strN "oman"
  , strN "bahrain", strN "poland", strN "romania", strN "czech republic"
  , strN "hungary", strN "slovakia", strN "bulgaria", strN "croatia"
  , strN "serbia", strN "slovenia" ]

/-- Lower-cased region values of `COUNTRY_TO_REGION`. -/
def regionNames : List Str := [strN "middle east", strN "eastern europe"]

/-! ## signal_scout.py: filter cascade -/

/-- Keep-predicate of `filter_tier1` (lines 481-497). -/
def keepTier1 (sig : Signal) : Bool :=
  let institution_lower := pyLower (sig.institution.getD [])
  let tier := pyLower (sig.institution_tier.getD [])
  let blocked_name := tier1Institutions.any (fun n => strContains institution_lower n)
  let blocked_large := largeEnterpriseExclusions.any (fun n => strContains institution_lower n)
  !(tier == strN "tier1" || blocked_name || blocked_large)

/-- Model of `filter_tier1`. -/
def filter_tier1 (signals : List Signal) : List Signal := signals.filter keepTier1

/-- Keep-predicate of `filter_crypto` (lines 500-522). -/
def keepCrypto (sig : Signal) : Bool :=
  let summary_lower := pyLower (sig.summary.getD [])
  let domain := pyLower (sig.domain.getD [])
  !(domain == strN "crypto" || cryptoPrimaryKeywords.any (fun kw => strContains summary_lower kw))

/-- Model of `filter_crypto`. -/
def filter_crypto (signals : List Signal) : List Signal := signals.filter keepCrypto

/-- Keep-predicate of `filter_ai_native_companies` (lines 525-555), including
the 240-character local context window around the institution's first mention
in the summary. -/
def keepAiNative (sig : Signal) : Bool :=
  let institution_lower := pyLower (pyStrip (sig.institution.getD []))
  let summary_lower := pyLower (pyStrip (sig.summary.getD []))
  let known_ai_native := aiNativeInstitutionKeywords.any (fun n => strContains institution_lower n)
  let local_window :=
    if institution_lower ≠ [] ∧ strContains summary_lower institution_lower then
      (summary_lower.drop (strFind summary_lower institution_lower)).take 240
    else summary_lower
  let self_described := aiNativeSelfPatterns.any (fun pat => strContains local_window pat)
  !(known_ai_native || self_described)

/-- Model of `filter_ai_native_companies`. -/
def filter_ai_native_companies (signals : List Signal) : List Signal :=
  signals.filter keepAiNative

/-- Keep-predicate of `filter_old_signals` (lines 558-583): unparsable dates
are kept; a parsed date is dropped when strictly older than
`now - cutoff_days`. -/
def keepOldSignal (now : ℚ) (cutoff_days : ℤ) (sig : Signal) : Bool :=
  match parseDateStrict (sig.signal_date.getD []) with
  | none => true
  | some d => !(decide ((dateOrdinal d : ℚ) < now - (cutoff_days : ℚ)))

/-- Model of `filter_old_signals`; `now` stands for `datetime.now()`. -/
def filter_old_signals (now : ℚ) (signals : List Signal) (cutoff_days : ℤ) : List Signal :=
  signals.filter (keepOldSignal now cutoff_days)

/-- Keep-predicate of `filter_non_company_institutions` (lines 734-761). -/
def keepNonCompany (sig : Signal) : Bool :=
  let institution := pyStrip (sig.institution.getD [])
  let low := pyLower institution
  if institution = [] then false
  else if low ∈ countryNames ∨ low ∈ regionNames then false
  else if nonCompanyTokens.any (fun t => strContains low t) then false
  else true

/-- Model of `filter_non_company_institutions`. -/
def filter_non_company_institutions (signals : List Signal) : List Signal :=
  signals.filter keepNonCompany

/-- Split of a lower-cased institution label into alphanumeric tokens
(`re.split(r"[^a-z0-9]+", low)` with empty chunks discarded). -/
def isAlnumCh (c : Nat) : Bool := (97 ≤ c && c ≤ 122) || (48 ≤ c && c ≤ 57)

def alnumTokens (s : Str) : List Str :=
  (s.splitOnP (fun c => !isAlnumCh c)).filter (fun t => !t.isEmpty)

def isAlphaTok (t : Str) : Bool := t.any (fun c => 97 ≤ c && c ≤ 122)

/-- Keep-predicate of `filter_generic_institution_labels` (lines 764-805). -/
def keepGenericLabel (sig : Signal) : Bool :=
  let institution := pyStrip (sig.institution.getD [])
  let low := pyLower institution
  let alpha_tokens := (alnumTokens low).filter isAlphaTok
  if alpha_tokens.isEmpty then false
  else
    let contains_company_hint := alpha_tokens.any (fun t => t ∈ companyHintTokens)
    let contains_generic_noun := alpha_tokens.any (fun t => t ∈ genericInstitutionNouns)
    let reduced := alpha_tokens.filter
      (fun t => t ∉ genericInstitutionNouns ∧ t ∉ institutionFillerWords)
    if reduced.isEmpty then false
    else if contains_generic_noun ∧ ¬contains_company_hint ∧ reduced.length ≤ 2 then false
    else true

/-- Model of `filter_generic_institution_labels`. -/
def filter_generic_institution_labels (signals : List Signal) : List Signal :=
  signals.filter keepGenericLabel

/-! ## signal_scout.py: domain rebalancer (lines 864-916) -/

/-- Model of `_normalize_domain`: strip, lower, `-`/`/` → `_`, collapse one
round of double spaces, then the synonym table. -/
def normalize_domain (domain : Str) : Str :=
  aiDomainSynonym
    (pyReplace (strN "  ") (strN " ")
      (pyReplace (strN "/") (strN "_")
        (pyReplace (strN "-") (strN "_")
          (pyLower (pyStrip domain)))))

def isAiPriority (d : Option Str) : Bool :=
  match d with
  | some x => x ∈ aiPriorityDomains
  | none => false

/-- Hint text scanned by the promotion loop:
`f"{summary} {regional_keyword_match} {signal_type}".lower()`. -/
def aiHintText (sig : Signal) : Str :=
  pyLower (sig.summary.getD [] ++ [32] ++ sig.regional_keyword_match.getD []
    ++ [32] ++ sig.signal_type.getD [])

def hasAiHint (sig : Signal) : Bool :=
  aiHintKeywords.any (fun kw => strContains (aiHintText sig) kw)

/-- The promotion loop of `rebalance_ai_focus`: scan in order, promote
non-priority records with an AI hint to `ai_implementation`, stop once
`ai_count` reaches `target`. -/
def promoteLoop (target : ℤ) : List Signal → ℤ → List Signal
  | [], _ => []
  | sig :: rest, ai_count =>
    if target ≤ ai_count then sig :: rest
    else if isAiPriority sig.domain then sig :: promoteLoop target rest ai_count
    else if hasAiHint sig then
      { sig with domain := some (strN "ai_implementation") } :: promoteLoop target rest (ai_count + 1)
    else sig :: promoteLoop target rest ai_count

/-- Domain normalisation applied to every record before counting. -/
def normalizeSignalDomain (sig : Signal) : Signal :=
  { sig with domain := some (normalize_domain (sig.domain.getD [])) }

def countAiPriority (signals : List Signal) : ℤ :=
  (signals.filter (fun s => isAiPriority s.domain)).length

/-- Model of `rebalance_ai_focus` (signal_scout.py lines 870-916).  The
`target_count` is `max(1, int(round(len(signals) * target_ratio)))`; with the
default `target_ratio = 0.5` the float product is exact, so `pyRound` of the
rational product is faithful. -/
def rebalance_ai_focus (signals : List Signal) (target_frac : ℚ) : List Signal :=
  if signals = [] then signals
  else
    let ns := signals.map normalizeSignalDomain
    let ai_count := countAiPriority ns
    let target : ℤ := max 1 (pyRound ((signals.length : ℚ) * target_frac))
    if target ≤ ai_count then ns
    else promoteLoop target ns ai_count

/-! ## signal_scout.py: output window (lines 638-658) -/

/-- Sort key `(signal_date, run_timestamp)` compared lexicographically. -/
def windowKeyLt (a b : Signal) : Bool :=
  strLt (a.signal_date.getD []) (b.signal_date.getD [])
  || (a.signal_date.getD [] == b.signal_date.getD []
      && strLt (a.run_timestamp.getD []) (b.run_timestamp.getD []))

/-- Stable insertion for descending sort: `x` is placed before the first
element strictly below it, so records with equal keys keep their original
relative order — the defining property of Python's stable
`sorted(..., reverse=True)`. -/
def insertDesc (x : Signal) : List Signal → List Signal
  | [] => [x]
  | y :: ys => if windowKeyLt y x then x :: y :: ys else y :: insertDesc x ys

/-- Stable descending sort (any stable sort agrees with CPython's timsort). -/
def sortDesc (signals : List Signal) : List Signal :=
  signals.foldl (fun acc x => insertDesc x acc) []

/-- Python slice `l[:n]`, including the negative-stop case. -/
def pySlice (l : List Signal) (n : ℤ) : List Signal :=
  if 0 ≤ n then l.take n.toNat else l.take ((l.length : ℤ) + n).toNat

/-- Model of `enforce_output_window` (signal_scout.py lines 638-658): sort by
`(signal_date, run_timestamp)` descending, truncate to `max_count`; a result
below `min_count` is returned as-is (the source only warns). -/
def enforce_output_window (signals : List Signal) (min_count max_count : ℤ) : List Signal :=
  pySlice (sortDesc signals) max_count

/-! ## database.py: run store and scored-run reconciliation (lines 241-356) -/

/-- One `scout_runs` row. -/
structure Run where
  id : Nat
  timestamp : Str
  queries_used : ℤ
  results_found : ℤ
  output_file : Str
  profile_file : Option Str
  profile_json : Option Str
deriving DecidableEq

/-- One `signals` table row. -/
structure Row where
  id : Nat
  run_id : Nat
  institution : Option Str
  country : Option Str
  region : Option Str
  signal_type : Option Str
  signal_date : Option Str
  domain : Option Str
  institution_tier : Option Str
  seniority : Option Str
  source_url : Option Str
  summary : Option Str
  total_score : Option ℚ
  priority_tier : Option Str
  action_pts : Option ℚ
  seniority_pts : Option ℚ
  domain_pts : Option ℚ
  accessibility_pts : Option ℚ
  recency_pts : Option ℚ
  seniority_inferred : ℤ
  scored_at : Option Str
deriving DecidableEq

/-- The SQLite store: rows in insertion (rowid) order plus the autoincrement
counters. -/
structure DB where
  runs : List Run
  signals : List Row
  nextRunId : Nat
  nextSigId : Nat
deriving DecidableEq

/-- A scored report file (`scored_report_*.json`): the fields
`write_scored_run` reads. -/
structure ScoredReport where
  timestamp : Str
  source_report : Str
  signals : List Signal
deriving DecidableEq

/-- Score fields pulled from a scored signal dict. -/
structure ScoreFields where
  total_score : Option ℚ
  priority_tier : Option Str
  action_pts : Option ℚ
  seniority_pts : Option ℚ
  domain_pts : Option ℚ
  accessibility_pts : Option ℚ
  recency_pts : Option ℚ
  seniority_inferred : ℤ
deriving DecidableEq

/-- Model of `_extract_score_fields` (database.py lines 213-238). -/
def extract_score_fields (sig : Signal) : ScoreFields :=
  let b := sig.score_breakdown
  { total_score := sig.total_score
  , priority_tier := sig.priority_tier
  , action_pts := (bdGet b (strN "action_type")).map (fun blk => blk.points)
  , seniority_pts := (bdGet b (strN "seniority")).map (fun blk => blk.points)
  , domain_pts := (bdGet b (strN "domain_fit")).map (fun blk => blk.points)
  , accessibility_pts := (bdGet b (strN "institution_accessibility")).map (fun blk => blk.points)
  , recency_pts := (bdGet b (strN "recency")).map (fun blk => blk.points)
  , seniority_inferred :=
      match bdGet b (strN "seniority") with
      | some blk => if blk.seniority_inferred then 1 else 0
      | none => 0 }

/-- SQL `column = ?` on nullable text: `NULL` on either side never matches. -/
def sqlEqOpt (a b : Option Str) : Bool :=
  match a, b with
  | some x, some y => x == y
  | _, _ => false

/-- SQL `COALESCE(column, '') = COALESCE(?, '')`. -/
def coalesceEq (a b : Option Str) : Bool := a.getD [] == b.getD []

/-- The `WHERE` clause of the matching `SELECT` in `write_scored_run`
(database.py lines 282-291). -/
def rowMatches (run_id : Nat) (sig : Signal) (r : Row) : Bool :=
  r.run_id == run_id
  && sqlEqOpt r.institution sig.institution
  && sqlEqOpt r.signal_type sig.signal_type
  && coalesceEq r.signal_date sig.signal_date
  && coalesceEq r.source_url sig.source_url

/-- The `UPDATE signals SET ... WHERE id = ?` of lines 294-320: only the score
fields and `scored_at` change. -/
def applyScoreFields (r : Row) (f : ScoreFields) (scored_at : Str) : Row :=
  { r with
    total_score := f.total_score, priority_tier := f.priority_tier,
    action_pts := f.action_pts, seniority_pts := f.seniority_pts,
    domain_pts := f.domain_pts, accessibility_pts := f.accessibility_pts,
    recency_pts := f.recency_pts, seniority_inferred := f.seniority_inferred,
    scored_at := some scored_at }

/-- Python `a or b` on optional strings (falsy `None` and `""` fall through). -/
def pyOrOpt (a b : Option Str) : Option Str :=
  match a with
  | some x => if x = [] then b else some x
  | none => b

/-- Python `sig.get(k) or "Unspecified"`. -/
def orUnspecified (a : Option Str) : Str :=
  match a with
  | some x => if x = [] then strN "Unspecified" else x
  | none => strN "Unspecified"

/-- The `INSERT INTO signals ...` of lines 322-354. -/
def mkScoredRow (sig_id run_id : Nat) (scored_at : Str) (sig : Signal) : Row :=
  let f := extract_score_fields sig
  { id := sig_id, run_id := run_id
  , institution := sig.institution
  , country := some (orUnspecified sig.country)
  , region := some (orUnspecified sig.region)
  , signal_type := sig.signal_type
  , signal_date := sig.signal_date
  , domain := sig.domain
  , institution_tier := pyOrOpt sig.institution_tier sig.institution_type
  , seniority := sig.seniority
  , source_url := sig.source_url
  , summary := sig.summary
  , total_score := f.total_score, priority_tier := f.priority_tier
  , action_pts := f.action_pts, seniority_pts := f.seniority_pts
  , domain_pts := f.domain_pts, accessibility_pts := f.accessibility_pts
  , recency_pts := f.recency_pts, seniority_inferred := f.seniority_inferred
  , scored_at := some scored_at }

/-- One iteration of the `for sig in signals` loop of `write_scored_run`:
look up the first matching row, update it in place, or append a fresh row. -/
def scoredStep (run_id : Nat) (scored_at : Str) (st : List Row × Nat) (sig : Signal) :
    List Row × Nat :=
  match st.1.find? (rowMatches run_id sig) with
  | some m => (st.1.map (fun r => if r.id == m.id then applyScoreFields r (extract_score_fields sig) scored_at else r), st.2)
  | none => (st.1 ++ [mkScoredRow st.2 run_id scored_at sig], st.2 + 1)

/-- The placeholder `scout_runs` row inserted when no run matches the scored
report's `source_report` (lines 267-275). -/
def placeholderRun (run_id : Nat) (report : ScoredReport) : Run :=
  { id := run_id, timestamp := report.timestamp, queries_used := 0
  , results_found := (report.signals.length : ℤ), output_file := report.source_report
  , profile_file := none, profile_json := none }

/-- Model of `write_scored_run` (database.py lines 241-356). -/
def write_scored_run (report : ScoredReport) (db : DB) : DB :=
  let found := db.runs.find? (fun r => r.output_file == report.source_report)
  let run_id := match found with | some r => r.id | none => db.nextRunId
  let runs := match found with | some _ => db.runs | none => db.runs ++ [placeholderRun db.nextRunId report]
  let nextRun := match found with | some _ => db.nextRunId | none => db.nextRunId + 1
  let st := report.signals.foldl (scoredStep run_id report.timestamp) (db.signals, db.nextSigId)
  { runs := runs, signals := st.1, nextRunId := nextRun, nextSigId := st.2 }

/-- Well-formedness of the store maintained by SQLite's autoincrement primary
keys: row ids are distinct and below the next id. -/
def DBWF (db : DB) : Prop :=
  (db.signals.map (fun r => r.id)).Nodup ∧ ∀ r ∈ db.signals, r.id < db.nextSigId

instance (db : DB) : Decidable (DBWF db) := by
  unfold DBWF
  infer_instance

/-! ## Theorems -/

/-! ### Additional definitions for the claim theorems and their test data -/
/-- Backfill length used by `exclude_seen`/`prefer_new`. -/
def backfillLen (unseenLen : ℕ) (min_count : ℤ) : ℕ :=
  if (unseenLen : ℤ) < min_count then (max 0 (min_count - unseenLen)).toNat else 0

/-- Concrete record used by several witnesses. -/
def c2Sig : Signal :=
  { emptySignal with
    institution := some (strN "Acme Bank"), signal_type := some (strN "hire"),
    signal_date := some (strN "2025-01"), summary := some (strN "Acme Bank hires AI lead") }

/-! ### Date-parsing lemmas for the recency claims -/

def joinDash : List Str → Str
  | [] => []
  | [p] => p
  | p :: ps => p ++ 45 :: joinDash ps

def c6BadSig : Signal := { emptySignal with signal_date := some (strN "not-a-date") }

def c6OldSig : Signal := { emptySignal with signal_date := some (strN "2019-12-31") }

/-- The default profile's ranking configuration (pipeline_profile.py lines
99-133), used as a concrete valid profile. -/
def defaultRanking : RankingConfig :=
  { categories :=
      [ { key := strN "action_strength", label := strN "Action Strength", weight := 30, description := [] }
      , { key := strN "buyer_fit", label := strN "Buyer Fit", weight := 25, description := [] }
      , { key := strN "domain_fit", label := strN "Domain Fit", weight := 20, description := [] }
      , { key := strN "seniority", label := strN "Seniority", weight := 15, description := [] }
      , { key := strN "recency", label := strN "Recency", weight := 10, description := [] } ]
  , priority_thresholds := { hot := 80, warm := 60, nurture := 40 } }

/-- The five fixed score components written by `rescore_signal`. -/
def stdComponents : List Str :=
  [ strN "action_type", strN "seniority", strN "domain_fit"
  , strN "institution_accessibility", strN "recency" ]

/-- A signal whose incoming breakdown carries an extra 1000-point entry. -/
def c3ExtraSig : Signal :=
  { emptySignal with
    score_breakdown :=
      [(strN "bonus", { category := strN "extra", points := 1000, seniority_inferred := false })] }

/-- Per-record relation along the rebalancer's promotion loop: a record is
either untouched or promoted — non-priority domain before, an AI hint in its
text, domain `ai_implementation` after, every other field unchanged. -/
def promRel (a b : Signal) : Prop :=
  b = a ∨ (isAiPriority a.domain = false ∧ hasAiHint a = true
    ∧ b = { a with domain := some (strN "ai_implementation") })

def c7PSig : Signal := { emptySignal with domain := some (strN "ai_implementation") }

def c7HSig : Signal :=
  { emptySignal with
    domain := some (strN "other"),
    summary := some (strN "bank adopts llm tools") }

/-- Domain with three inner spaces: one pass of the `"  " -> " "` replacement
leaves two spaces, so normalisation is not idempotent on it. -/
def c7SpacedSig : Signal := { emptySignal with domain := some (strN "ai   transformation") }

def c7Ex1 : List Signal := [c7PSig, c7HSig, c7HSig, c7HSig, c7HSig]

def c7Ex2 : List Signal := [c7PSig, c7SpacedSig]

def c7Spaced2Sig : Signal := { emptySignal with domain := some (strN "ai  transformation") }

def c7TransSig : Signal := { emptySignal with domain := some (strN "ai_transformation") }

def c8DatedSig : Signal := { emptySignal with signal_date := some (strN "2025-01-01") }

def c8NoiseSig : Signal := { emptySignal with signal_date := some (strN "not-a-date") }

/-- The identity columns of a signals-table row: `(institution, signal_type,
signal_date, source_url)`. -/
def rowIdentity (r : Row) : Option Str × Option Str × Option Str × Option Str :=
  (r.institution, r.signal_type, r.signal_date, r.source_url)

/-- The identity fields a scored-report signal dict carries. -/
def sigIdentity (sig : Signal) : Option Str × Option Str × Option Str × Option Str :=
  (sig.institution, sig.signal_type, sig.signal_date, sig.source_url)

def c4OldRow : Row :=
  { id := 0, run_id := 0, institution := some (strN "Old Corp"), country := none
  , region := none, signal_type := some (strN "hire"), signal_date := none
  , domain := none, institution_tier := none, seniority := none, source_url := none
  , summary := none, total_score := none, priority_tier := none, action_pts := none
  , seniority_pts := none, domain_pts := none, accessibility_pts := none
  , recency_pts := none, seniority_inferred := 0, scored_at := none }

def c4Run : Run :=
  { id := 0, timestamp := strN "t0", queries_used := 0, results_found := 1
  , output_file := strN "report.json", profile_file := none, profile_json := none }

def c4Db : DB := { runs := [c4Run], signals := [c4OldRow], nextRunId := 1, nextSigId := 1 }

def c4NewSig : Signal :=
  { emptySignal with
    institution := some (strN "New Corp"),
    signal_type := some (strN "hire") }

def c4Report : ScoredReport :=
  { timestamp := strN "t1", source_report := strN "report.json", signals := [c4NewSig] }

/-- The columns `write_scored_run`'s UPDATE never touches: primary key,
run id, identity and descriptive columns.  Everything else (the score fields
and `scored_at`) is overwritten wholesale by every update. -/
def nonScore (r : Row) :
    Nat × Nat × Option Str × Option Str × Option Str × Option Str × Option Str
      × Option Str × Option Str × Option Str × Option Str × Option Str :=
  (r.id, r.run_id, r.institution, r.country, r.region, r.signal_type, r.signal_date,
   r.domain, r.institution_tier, r.seniority, r.source_url, r.summary)

/-- Well-formedness of an intermediate `(rows, next_id)` state: primary keys
distinct and below the autoincrement counter. -/
def WFst (st : List Row × Nat) : Prop :=
  (st.1.map (fun r => r.id)).Nodup ∧ ∀ r ∈ st.1, r.id < st.2

/-- Three-way pointwise relation used to replay the scoring pass: `ss` is the
first pass's current row list, `l1s` the corresponding prefix of its final row
list, and `ts` the second pass's current row list.  Each second-pass row is
either the first pass's row at that position or the final row, and all three
share their non-score columns. -/
inductive TriRel : List Row → List Row → List Row → Prop where
  | nil : TriRel [] [] []
  | cons {s l1r tr : Row} {ss l1s ts : List Row} :
      nonScore l1r = nonScore s → (tr = s ∨ tr = l1r) →
      TriRel ss l1s ts → TriRel (s :: ss) (l1r :: l1s) (tr :: ts)

def c1GoodSig : Signal :=
  { emptySignal with
    institution := some (strN "Acme Bank"),
    signal_type := some (strN "hire") }

def c1Report : ScoredReport :=
  { timestamp := strN "t1", source_report := strN "scout_report.json"
  , signals := [c1GoodSig] }

def c1Run : Run :=
  { id := 0, timestamp := strN "t0", queries_used := 2, results_found := 1
  , output_file := strN "scout_report.json", profile_file := none, profile_json := none }

def c1Db : DB := { runs := [c1Run], signals := [], nextRunId := 1, nextSigId := 0 }

def c1NullSig : Signal :=
  { emptySignal with
    signal_type := some (strN "hire"),
    summary := some (strN "anonymous hire signal") }

def c1NullReport : ScoredReport :=
  { timestamp := strN "t1", source_report := strN "scout_report.json"
  , signals := [c1NullSig] }

/-- C10: every filter-cascade stage (`filter_tier1`, `filter_crypto`,
`filter_ai_native_companies`, `filter_old_signals`,
`filter_non_company_institutions`, `filter_generic_institution_labels`)
returns a subsequence of its input list: kept records appear in their
original relative order, no record is added, and no record value is
modified by these filters. -/
theorem c10_filters_are_subsequences (signals : List Signal) (now : ℚ) (cutoff_days : ℤ) :
    (filter_tier1 signals).Sublist signals
    ∧ (filter_crypto signals).Sublist signals
    ∧ (filter_ai_native_companies signals).Sublist signals
    ∧ (filter_old_signals now signals cutoff_days).Sublist signals
    ∧ (filter_non_company_institutions signals).Sublist signals
    ∧ (filter_generic_institution_labels signals).Sublist signals :=
  ⟨List.filter_sublist signals, List.filter_sublist signals, List.filter_sublist signals,
   List.filter_sublist signals, List.filter_sublist signals, List.filter_sublist signals⟩

theorem apply_dedupe_policy_exclude_seen_eq (existingFps : List Str) (signals : List Signal)
    (min_count : ℤ) :
    apply_dedupe_policy existingFps signals (strN "exclude_seen") min_count
      = (dedupePartition existingFps signals []).1
        ++ (dedupePartition existingFps signals []).2.take
            (backfillLen (dedupePartition existingFps signals []).1.length min_count) := by
  unfold apply_dedupe_policy backfillLen
  have h1 : (strN "exclude_seen").isEmpty = false := by decide
  have h2 : normTok (strN "exclude_seen") = strN "exclude_seen" := by decide
  simp only [h1, Bool.false_eq_true, if_false, h2, if_pos rfl]
  by_cases h : ((dedupePartition existingFps signals []).1.length : ℤ) < min_count
  · simp [h]
  · simp [h]

theorem apply_dedupe_policy_prefer_new_eq (existingFps : List Str) (signals : List Signal)
    (min_count : ℤ) :
    apply_dedupe_policy existingFps signals (strN "prefer_new") min_count
      = (dedupePartition existingFps signals []).1
        ++ (dedupePartition existingFps signals []).2.take
            (backfillLen (dedupePartition existingFps signals []).1.length min_count) := by
  unfold apply_dedupe_policy backfillLen
  have h1 : (strN "prefer_new").isEmpty = false := by decide
  have h2 : normTok (strN "prefer_new") = strN "prefer_new" := by decide
  have h3 : ¬(normTok (strN "prefer_new") = strN "exclude_seen") := by decide
  have h4 : ¬(normTok (strN "prefer_new") = strN "allow_seen") := by decide
  simp only [h1, Bool.false_eq_true, if_false, if_neg h3, if_neg h4]
  by_cases h : ((dedupePartition existingFps signals []).1.length : ℤ) < min_count
  · simp [h]
  · simp [h]

theorem backfillLen_le (unseenLen : ℕ) (min_count : ℤ) :
    (backfillLen unseenLen min_count : ℤ) ≤ max 0 (min_count - unseenLen) := by
  unfold backfillLen
  by_cases h : (unseenLen : ℤ) < min_count
  · simp only [if_pos h]
    omega
  · simp only [if_neg h]
    omega

theorem backfillLen_of_ge (unseenLen : ℕ) (min_count : ℤ)
    (h : min_count ≤ (unseenLen : ℤ)) : backfillLen unseenLen min_count = 0 := by
  unfold backfillLen
  simp only [if_neg (by omega : ¬((unseenLen : ℤ) < min_count))]

/-- C5: for every batch and every `min_count`, `apply_dedupe_policy` under
`exclude_seen` (and under the default `prefer_new`) returns all unseen
records first, followed by at most `max(0, min_count − len(unseen))` seen
records taken in order; it never backfills more seen records than
`min_count − len(unseen)`, and when `len(unseen) ≥ min_count` it returns the
unseen records only.  `unseen`/`seen` are the partitions of the batch after
collapsing intra-batch duplicate fingerprints, exactly as the source
computes them. -/
theorem c5_dedupe_policy_backfill_bound (existingFps : List Str) (signals : List Signal)
    (min_count : ℤ) :
    (apply_dedupe_policy existingFps signals (strN "exclude_seen") min_count
        = (dedupePartition existingFps signals []).1
          ++ (dedupePartition existingFps signals []).2.take
              (backfillLen (dedupePartition existingFps signals []).1.length min_count))
    ∧ (apply_dedupe_policy existingFps signals (strN "prefer_new") min_count
        = (dedupePartition existingFps signals []).1
          ++ (dedupePartition existingFps signals []).2.take
              (backfillLen (dedupePartition existingFps signals []).1.length min_count))
    ∧ ((backfillLen (dedupePartition existingFps signals []).1.length min_count : ℤ)
        ≤ max 0 (min_count - (dedupePartition existingFps signals []).1.length))
    ∧ (min_count ≤ ((dedupePartition existingFps signals []).1.length : ℤ) →
        apply_dedupe_policy existingFps signals (strN "exclude_seen") min_count
          = (dedupePartition existingFps signals []).1
        ∧ apply_dedupe_policy existingFps signals (strN "prefer_new") min_count
          = (dedupePartition existingFps signals []).1) := by
  refine ⟨apply_dedupe_policy_exclude_seen_eq _ _ _,
          apply_dedupe_policy_prefer_new_eq _ _ _,
          backfillLen_le _ _, fun h => ⟨?_, ?_⟩⟩
  · rw [apply_dedupe_policy_exclude_seen_eq, backfillLen_of_ge _ _ h]
    simp
  · rw [apply_dedupe_policy_prefer_new_eq, backfillLen_of_ge _ _ h]
    simp

/-- Witness for C5 at a concrete batch: two distinct unseen records, one seen
record, `min_count = 3`, so exactly one seen record is backfilled. -/
theorem c5_dedupe_policy_backfill_bound_witness :
    apply_dedupe_policy [signal_fingerprint { emptySignal with institution := some (strN "Seen Co") }]
        [ { emptySignal with institution := some (strN "A Co") }
        , { emptySignal with institution := some (strN "Seen Co") }
        , { emptySignal with institution := some (strN "B Co") } ]
        (strN "exclude_seen") 3
      = [ { emptySignal with institution := some (strN "A Co") }
        , { emptySignal with institution := some (strN "B Co") }
        , { emptySignal with institution := some (strN "Seen Co") } ] := by
  have h := (c5_dedupe_policy_backfill_bound
    [signal_fingerprint { emptySignal with institution := some (strN "Seen Co") }]
    [ { emptySignal with institution := some (strN "A Co") }
    , { emptySignal with institution := some (strN "Seen Co") }
    , { emptySignal with institution := some (strN "B Co") } ] 3).1
  rw [h]
  decide

/-! ### String normalisation lemmas for the fingerprint contract -/

theorem isWsCh_iff (c : Nat) : isWsCh c = true ↔ (c = 32 ∨ c = 9 ∨ c = 13 ∨ c = 10) := by
  simp only [isWsCh, Bool.or_eq_true, beq_iff_eq]
  tauto

theorem isWsCh_lowerCh (c : Nat) : isWsCh (lowerCh c) = isWsCh c := by
  rw [Bool.eq_iff_iff, isWsCh_iff, isWsCh_iff]
  unfold lowerCh
  by_cases h : 65 ≤ c ∧ c ≤ 90
  · simp only [if_pos h]
    omega
  · simp only [if_neg h]

theorem dropWhile_append_all {p : Nat → Bool} (w t : Str) (h : ∀ c ∈ w, p c = true) :
    (w ++ t).dropWhile p = t.dropWhile p := by
  induction w with
  | nil => rfl
  | cons c cs ih =>
    have hc : p c = true := h c (by simp)
    simp only [List.cons_append, List.dropWhile_cons, hc, if_true]
    exact ih (fun x hx => h x (by simp [hx]))

theorem ftrim_eq_nil_iff (s : Str) : ftrim s = [] ↔ ∀ c ∈ s, isWsCh c = true := by
  unfold ftrim
  induction s with
  | nil => simp
  | cons c cs ih =>
    by_cases hc : isWsCh c = true
    · simp only [List.dropWhile_cons, hc, if_true]
      rw [ih]
      constructor
      · intro h x hx
        rcases List.mem_cons.mp hx with rfl | hx
        exacts [hc, h x hx]
      · intro h x hx
        exact h x (by simp [hx])
    · simp only [List.dropWhile_cons, hc, if_false]
      constructor
      · intro h
        exact absurd h (List.cons_ne_nil c cs)
      · intro h
        exact absurd (h c (by simp)) hc

theorem ftrim_append_of_ftrim_ne (s w : Str) (h : ftrim s ≠ []) :
    ftrim (s ++ w) = ftrim s ++ w := by
  induction s with
  | nil => simp [ftrim] at h
  | cons c cs ih =>
    by_cases hc : isWsCh c = true
    · have h1 : ftrim (c :: cs) = ftrim cs := by simp [ftrim, List.dropWhile_cons, hc]
      have h2 : ftrim (c :: cs ++ w) = ftrim (cs ++ w) := by
        simp [ftrim, List.dropWhile_cons, hc]
      rw [h2, h1, ih (h1 ▸ h)]
    · have h1 : ftrim (c :: cs) = c :: cs := by simp [ftrim, List.dropWhile_cons, hc]
      have h2 : ftrim (c :: cs ++ w) = c :: cs ++ w := by
        simp [ftrim, List.dropWhile_cons, hc]
      rw [h2, h1]

theorem rtrim_append_ws (t w : Str) (hw : ∀ c ∈ w, isWsCh c = true) :
    rtrim (t ++ w) = rtrim t := by
  unfold rtrim
  rw [List.reverse_append, dropWhile_append_all w.reverse t.reverse
    (fun c hc => hw c (List.mem_reverse.mp hc))]

theorem pyStrip_pad (w1 s w2 : Str) (h1 : ∀ c ∈ w1, isWsCh c = true)
    (h2 : ∀ c ∈ w2, isWsCh c = true) : pyStrip (w1 ++ s ++ w2) = pyStrip s := by
  unfold pyStrip
  rw [List.append_assoc, show ftrim (w1 ++ (s ++ w2)) = ftrim (s ++ w2) from
    dropWhile_append_all w1 (s ++ w2) h1]
  by_cases hs : ftrim s = []
  · have hsw : ftrim (s ++ w2) = [] := by
      rw [ftrim_eq_nil_iff] at hs ⊢
      intro c hc
      rcases List.mem_append.mp hc with h | h
      exacts [hs c h, h2 c h]
    rw [hsw, hs]
  · rw [ftrim_append_of_ftrim_ne s w2 hs, rtrim_append_ws _ _ h2]

theorem dropWhile_map_ws {g : Nat → Nat} (hws : ∀ c, isWsCh (g c) = isWsCh c) (s : Str) :
    (s.map g).dropWhile isWsCh = (s.dropWhile isWsCh).map g := by
  induction s with
  | nil => rfl
  | cons c cs ih =>
    simp only [List.map_cons, List.dropWhile_cons, hws c]
    by_cases hc : isWsCh c = true
    · simp only [hc, if_true, ih]
    · rw [Bool.not_eq_true] at hc
      simp only [hc, Bool.false_eq_true, if_false, List.map_cons]

theorem pyStrip_map_ws {g : Nat → Nat} (hws : ∀ c, isWsCh (g c) = isWsCh c) (s : Str) :
    pyStrip (s.map g) = (pyStrip s).map g := by
  unfold pyStrip ftrim rtrim
  rw [dropWhile_map_ws hws, ← List.map_reverse, dropWhile_map_ws hws, ← List.map_reverse]

theorem normTok_map_case {g : Nat → Nat} (hg : ∀ c, lowerCh (g c) = lowerCh c) (s : Str) :
    normTok (s.map g) = normTok s := by
  have hws : ∀ c, isWsCh (g c) = isWsCh c := fun c => by
    rw [← isWsCh_lowerCh (g c), hg c, isWsCh_lowerCh]
  unfold normTok pyLower
  rw [pyStrip_map_ws hws, List.map_map]
  exact List.map_congr_left (fun c _ => hg c)

theorem normTok_pad_case (w1 w2 s : Str) {g : Nat → Nat}
    (h1 : ∀ c ∈ w1, isWsCh c = true) (h2 : ∀ c ∈ w2, isWsCh c = true)
    (hg : ∀ c, lowerCh (g c) = lowerCh c) :
    normTok (w1 ++ s.map g ++ w2) = normTok s := by
  unfold normTok
  rw [pyStrip_pad w1 (s.map g) w2 h1 h2]
  have hws : ∀ c, isWsCh (g c) = isWsCh c := fun c => by
    rw [← isWsCh_lowerCh (g c), hg c, isWsCh_lowerCh]
  unfold pyLower
  rw [pyStrip_map_ws hws, List.map_map]
  exact List.map_congr_left (fun c _ => hg c)

theorem normTok_eq_pyLower_pyStrip (s : Str) : normTok s = (pyStrip s).map lowerCh := rfl

theorem normTok_getD_pad (o : Option Str) (w1 w2 : Str) {g : Nat → Nat}
    (h1 : ∀ c ∈ w1, isWsCh c = true) (h2 : ∀ c ∈ w2, isWsCh c = true)
    (hg : ∀ c, lowerCh (g c) = lowerCh c) :
    normTok ((o.map (fun x => w1 ++ x.map g ++ w2)).getD []) = normTok (o.getD []) := by
  cases o with
  | none => rfl
  | some x => exact normTok_pad_case w1 w2 x h1 h2 hg

/-- C2: `signal_fingerprint` implements the spec formula (`url::` +
normalised `source_url` when present and non-blank, else `triple::` over the
normalised institution/type/date joined by `|`); it is a pure function of
the four identity fields only (hence stable across repeated calls and
independent of every score field); and it is invariant under surrounding
whitespace and case variation of institution, signal_type and signal_date. -/
theorem c2_signal_fingerprint_contract :
    (∀ sig : Signal, signal_fingerprint sig = fingerprintSpec sig)
    ∧ (∀ s t : Signal, s.institution = t.institution → s.signal_type = t.signal_type →
        s.signal_date = t.signal_date → s.source_url = t.source_url →
        signal_fingerprint s = signal_fingerprint t)
    ∧ (∀ (sig : Signal) (w1 w2 w3 w4 w5 w6 : Str) (g : Nat → Nat),
        (∀ c ∈ w1, isWsCh c = true) → (∀ c ∈ w2, isWsCh c = true) →
        (∀ c ∈ w3, isWsCh c = true) → (∀ c ∈ w4, isWsCh c = true) →
        (∀ c ∈ w5, isWsCh c = true) → (∀ c ∈ w6, isWsCh c = true) →
        (∀ c, lowerCh (g c) = lowerCh c) →
        signal_fingerprint
          { sig with
            institution := sig.institution.map (fun x => w1 ++ x.map g ++ w2),
            signal_type := sig.signal_type.map (fun x => w3 ++ x.map g ++ w4),
            signal_date := sig.signal_date.map (fun x => w5 ++ x.map g ++ w6) }
          = signal_fingerprint sig) := by
  refine ⟨?_, ?_, ?_⟩
  · intro sig
    unfold signal_fingerprint fingerprintSpec
    cases hu : sig.source_url with
    | none =>
      simp [normTok_eq_pyLower_pyStrip, show pyStrip ([] : Str) = [] from rfl]
    | some u =>
      by_cases hp : pyStrip u = []
      · simp [normTok_eq_pyLower_pyStrip, hp]
      · have hne : (pyStrip u).map lowerCh ≠ [] := by
          intro hcon
          exact hp (List.map_eq_nil_iff.mp hcon)
        simp [normTok_eq_pyLower_pyStrip, hp, hne]
  · intro s t h1 h2 h3 h4
    unfold signal_fingerprint
    rw [h1, h2, h3, h4]
  · intro sig w1 w2 w3 w4 w5 w6 g h1 h2 h3 h4 h5 h6 hg
    unfold signal_fingerprint
    dsimp only
    rw [normTok_getD_pad sig.institution w1 w2 h1 h2 hg,
        normTok_getD_pad sig.signal_type w3 w4 h3 h4 hg,
        normTok_getD_pad sig.signal_date w5 w6 h5 h6 hg]

/-- Witness for C2: all three parts applied at a concrete record, with a
whitespace pad of one space and the case map swapping `a` to `A`. -/
theorem c2_signal_fingerprint_contract_witness :
    signal_fingerprint c2Sig = fingerprintSpec c2Sig
    ∧ signal_fingerprint c2Sig
        = signal_fingerprint
            { c2Sig with
              priority_tier := some (strN "HOT"),
              score_breakdown := [(strN "action_type", { category := strN "hire", points := 20, seniority_inferred := false })] }
    ∧ signal_fingerprint
        { c2Sig with
          institution := c2Sig.institution.map (fun x => [32] ++ x.map (fun c => if c = 97 then 65 else c) ++ []),
          signal_type := c2Sig.signal_type.map (fun x => [32] ++ x.map (fun c => if c = 97 then 65 else c) ++ []),
          signal_date := c2Sig.signal_date.map (fun x => [32] ++ x.map (fun c => if c = 97 then 65 else c) ++ []) }
        = signal_fingerprint c2Sig := by
  have hg : ∀ c, lowerCh ((fun c => if c = 97 then 65 else c) c) = lowerCh c := by
    intro c
    by_cases h : c = 97
    · subst h
      decide
    · simp only [if_neg h]
  refine ⟨c2_signal_fingerprint_contract.1 c2Sig,
          c2_signal_fingerprint_contract.2.1 c2Sig _ rfl rfl rfl rfl,
          c2_signal_fingerprint_contract.2.2 c2Sig [32] [] [32] [] [32] [] _
            (by decide) (by decide) (by decide) (by decide) (by decide) (by decide) hg⟩

theorem splitDash_ne_nil (s : Str) : splitDash s ≠ [] := by
  cases s with
  | nil => simp [splitDash]
  | cons c rest =>
    unfold splitDash
    cases h : splitDash rest with
    | nil => simp
    | cons p ps =>
      by_cases hc : c = 45 <;> simp [hc]

theorem splitDash_cons_eq (c : ℕ) (rest : Str) (p : Str) (ps : List Str)
    (h : splitDash rest = p :: ps) :
    splitDash (c :: rest) = if c = 45 then [] :: p :: ps else (c :: p) :: ps := by
  unfold splitDash
  rw [h]

theorem joinDash_splitDash (s : Str) : joinDash (splitDash s) = s := by
  induction s with
  | nil => rfl
  | cons c rest ih =>
    cases h : splitDash rest with
    | nil => exact absurd h (splitDash_ne_nil rest)
    | cons p ps =>
      rw [h] at ih
      rw [splitDash_cons_eq c rest p ps h]
      by_cases hc : c = 45
      · subst hc
        rw [if_pos rfl]
        rw [show joinDash ([] :: p :: ps) = [] ++ 45 :: joinDash (p :: ps) from rfl, ih]
        simp
      · rw [if_neg hc]
        cases ps with
        | nil =>
          rw [show joinDash [c :: p] = c :: p from rfl]
          rw [show joinDash [p] = p from rfl] at ih
          rw [ih]
        | cons q qs =>
          rw [show joinDash ((c :: p) :: q :: qs) = (c :: p) ++ 45 :: joinDash (q :: qs) from rfl]
          rw [show joinDash (p :: q :: qs) = p ++ 45 :: joinDash (q :: qs) from rfl] at ih
          rw [List.cons_append, ih]

theorem dropWhile_eq_self_of_head {p : Nat → Bool} (s : Str)
    (h : ∀ c ∈ s, p c = false) : s.dropWhile p = s := by
  cases s with
  | nil => rfl
  | cons c cs => simp [List.dropWhile_cons, h c (by simp)]

theorem pyStrip_of_no_ws (s : Str) (h : ∀ c ∈ s, isWsCh c = false) : pyStrip s = s := by
  unfold pyStrip ftrim rtrim
  rw [dropWhile_eq_self_of_head s h,
      dropWhile_eq_self_of_head s.reverse (fun c hc => h c (List.mem_reverse.mp hc)),
      List.reverse_reverse]

theorem isWsCh_of_digit (c : Nat) (h : isDigitCh c = true) : isWsCh c = false := by
  simp only [isDigitCh, Bool.and_eq_true, decide_eq_true_eq] at h
  rw [Bool.eq_false_iff]
  intro hw
  rw [isWsCh_iff] at hw
  omega

theorem isWsCh_45 : isWsCh 45 = false := by decide

theorem fieldOk_no_ws (t : Str) (lo hi : Nat) (h : fieldOk t lo hi = true) :
    ∀ c ∈ t, isWsCh c = false := by
  intro c hc
  simp only [fieldOk, Bool.and_eq_true, List.all_eq_true] at h
  exact isWsCh_of_digit c (h.1.1 c hc)

theorem parseYM_fieldOk (y m : Str) (d : Date) (h : parseYM y m = some d) :
    fieldOk y 4 4 = true ∧ fieldOk m 1 2 = true := by
  unfold parseYM at h
  by_cases hok : (fieldOk y 4 4 && fieldOk m 1 2) = true
  · exact ⟨Bool.and_elim_left hok, Bool.and_elim_right hok⟩
  · rw [Bool.not_eq_true] at hok
    rw [hok] at h
    exact absurd h (by simp)

theorem parseYMD_fieldOk (y m dd : Str) (d : Date) (h : parseYMD y m dd = some d) :
    fieldOk y 4 4 = true ∧ fieldOk m 1 2 = true ∧ fieldOk dd 1 2 = true := by
  unfold parseYMD at h
  by_cases hok : (fieldOk y 4 4 && fieldOk m 1 2 && fieldOk dd 1 2) = true
  · exact ⟨Bool.and_elim_left (Bool.and_elim_left hok),
      Bool.and_elim_right (Bool.and_elim_left hok), Bool.and_elim_right hok⟩
  · rw [Bool.not_eq_true] at hok
    rw [hok] at h
    exact absurd h (by simp)

theorem parseDateStrict_no_ws (s : Str) (d : Date) (h : parseDateStrict s = some d) :
    ∀ c ∈ s, isWsCh c = false := by
  unfold parseDateStrict at h
  intro c hc
  rcases hsp : splitDash s with _ | ⟨y, _ | ⟨m, _ | ⟨dd, _ | ⟨e, es⟩⟩⟩⟩ <;> rw [hsp] at h
  · exact Option.noConfusion (show (none : Option Date) = some d from h)
  · exact Option.noConfusion (show (none : Option Date) = some d from h)
  · -- two fields: s = y ++ 45 :: m
    have hs : s = y ++ 45 :: m := by
      have hj := joinDash_splitDash s
      rw [hsp] at hj
      rw [show joinDash [y, m] = y ++ 45 :: joinDash [m] from rfl,
          show joinDash [m] = m from rfl] at hj
      exact hj.symm
    obtain ⟨hy, hm⟩ := parseYM_fieldOk y m d h
    rw [hs] at hc
    rcases List.mem_append.mp hc with hcy | hcm
    · exact fieldOk_no_ws y 4 4 hy c hcy
    · rcases List.mem_cons.mp hcm with rfl | hcm
      · exact isWsCh_45
      · exact fieldOk_no_ws m 1 2 hm c hcm
  · -- three fields: s = y ++ 45 :: (m ++ 45 :: dd)
    have hs : s = y ++ 45 :: (m ++ 45 :: dd) := by
      have hj := joinDash_splitDash s
      rw [hsp] at hj
      rw [show joinDash [y, m, dd] = y ++ 45 :: joinDash [m, dd] from rfl,
          show joinDash [m, dd] = m ++ 45 :: joinDash [dd] from rfl,
          show joinDash [dd] = dd from rfl] at hj
      exact hj.symm
    obtain ⟨hy, hm, hd⟩ := parseYMD_fieldOk y m dd d h
    rw [hs] at hc
    rcases List.mem_append.mp hc with hcy | hcm
    · exact fieldOk_no_ws y 4 4 hy c hcy
    · rcases List.mem_cons.mp hcm with rfl | hcm
      · exact isWsCh_45
      · rcases List.mem_append.mp hcm with hcm2 | hcd
        · exact fieldOk_no_ws m 1 2 hm c hcm2
        · rcases List.mem_cons.mp hcd with rfl | hcd
          · exact isWsCh_45
          · exact fieldOk_no_ws dd 1 2 hd c hcd
  · exact Option.noConfusion (show (none : Option Date) = some d from h)

theorem parseDateStrict_pyStrip (s : Str) (d : Date) (h : parseDateStrict s = some d) :
    parse_signal_date s = some d := by
  unfold parse_signal_date
  rw [pyStrip_of_no_ws s (parseDateStrict_no_ws s d h)]
  exact h

theorem parse_signal_date_none_strict (s : Str) (h : parse_signal_date s = none) :
    parseDateStrict s = none := by
  cases hst : parseDateStrict s with
  | none => rfl
  | some d => rw [parseDateStrict_pyStrip s d hst] at h; exact absurd h (by simp)

/-- C6: a signal whose `signal_date` fails to parse under `%Y-%m-%d` and
`%Y-%m` (even after stripping, i.e. `parse_signal_date` returns `none` —
the filter's own no-strip parse then fails as well) is kept by the recency
filter while the scoring recency component assigns it 0 points; a signal
whose date the filter parses to a day strictly older than `cutoff_days`
before `now` is dropped. -/
theorem c6_recency_fail_open_vs_score_zero :
    (∀ (now : ℚ) (cutoff_days : ℤ) (signals : List Signal) (sig : Signal),
        parse_signal_date (sig.signal_date.getD []) = none →
        keepOldSignal now cutoff_days sig = true
          ∧ (sig ∈ signals → sig ∈ filter_old_signals now signals cutoff_days)
          ∧ (score_recency now (sig.signal_date.getD [])).points = 0)
    ∧ (∀ (now : ℚ) (cutoff_days : ℤ) (signals : List Signal) (sig : Signal) (d : Date),
        parseDateStrict (sig.signal_date.getD []) = some d →
        (dateOrdinal d : ℚ) < now - (cutoff_days : ℚ) →
        keepOldSignal now cutoff_days sig = false
          ∧ sig ∉ filter_old_signals now signals cutoff_days) := by
  constructor
  · intro now cutoff_days signals sig h
    have hstrict : parseDateStrict (sig.signal_date.getD []) = none :=
      parse_signal_date_none_strict _ h
    have hkeep : keepOldSignal now cutoff_days sig = true := by
      unfold keepOldSignal
      rw [hstrict]
    refine ⟨hkeep, fun hm => List.mem_filter.mpr ⟨hm, hkeep⟩, ?_⟩
    unfold score_recency
    rw [h]
  · intro now cutoff_days signals sig d hparse hlt
    have hkeep : keepOldSignal now cutoff_days sig = false := by
      unfold keepOldSignal
      rw [hparse]
      simp [hlt]
    refine ⟨hkeep, fun hm => ?_⟩
    have := (List.mem_filter.mp hm).2
    rw [hkeep] at this
    exact Bool.noConfusion this

/-- Witness for C6: `"not-a-date"` is kept by the filter and scored 0;
`"2019-12-31"` is dropped when `now` is day 739253 (mid-2025) and
`cutoff_days = 90`. -/
theorem c6_recency_fail_open_vs_score_zero_witness :
    (keepOldSignal 0 90 c6BadSig = true
      ∧ (c6BadSig ∈ [c6BadSig] → c6BadSig ∈ filter_old_signals 0 [c6BadSig] 90)
      ∧ (score_recency 0 (c6BadSig.signal_date.getD [])).points = 0)
    ∧ (keepOldSignal 739253 90 c6OldSig = false
      ∧ c6OldSig ∉ filter_old_signals 739253 [c6OldSig] 90) := by
  constructor
  · exact c6_recency_fail_open_vs_score_zero.1 0 90 [c6BadSig] c6BadSig (by decide)
  · refine c6_recency_fail_open_vs_score_zero.2 739253 90 [c6OldSig] c6OldSig ⟨2019, 12, 31⟩
      (by decide) ?_
    have hord : dateOrdinal ⟨2019, 12, 31⟩ = 737424 := by decide
    rw [hord]
    norm_num

/-! ### Rounding lemmas -/

theorem ratFloor_eq (q : ℚ) : ratFloor q = ⌊q⌋ := by
  unfold ratFloor
  rw [Int.fdiv_eq_ediv _ (by exact_mod_cast Nat.zero_le q.den)]
  exact Rat.floor_def.symm

theorem pyRound_cases (q : ℚ) :
    pyRound q = ⌊q⌋ ∨ (pyRound q = ⌊q⌋ + 1 ∧ 1 / 2 ≤ q - (⌊q⌋ : ℚ)) := by
  unfold pyRound
  rw [ratFloor_eq]
  by_cases h1 : q - (⌊q⌋ : ℚ) < 1 / 2
  · left
    rw [if_pos h1]
  · by_cases h2 : 1 / 2 < q - (⌊q⌋ : ℚ)
    · right
      exact ⟨by rw [if_neg h1, if_pos h2], by linarith⟩
    · by_cases h3 : ⌊q⌋ % 2 = 0
      · left
        rw [if_neg h1, if_neg h2, if_pos h3]
      · right
        exact ⟨by rw [if_neg h1, if_neg h2, if_neg h3], by linarith⟩

theorem pyRound_ge_floor (q : ℚ) : ⌊q⌋ ≤ pyRound q := by
  rcases pyRound_cases q with h | ⟨h, _⟩ <;> omega

theorem pyRound_nonneg (q : ℚ) (h : 0 ≤ q) : 0 ≤ pyRound q :=
  le_trans (Int.floor_nonneg.mpr h) (pyRound_ge_floor q)

theorem pyRound_le_intCast (q : ℚ) (n : ℤ) (h : q ≤ (n : ℚ)) : pyRound q ≤ n := by
  rcases pyRound_cases q with hc | ⟨hc, hhalf⟩
  · rw [hc]
    calc ⌊q⌋ ≤ ⌊(n : ℚ)⌋ := Int.floor_le_floor h
    _ = n := Int.floor_intCast n
  · rw [hc]
    have hfl : (⌊q⌋ : ℚ) < (n : ℚ) := by linarith
    have : ⌊q⌋ < n := by exact_mod_cast hfl
    omega

theorem pyRound_gt_half (q : ℚ) (h : 1 / 2 < q - (⌊q⌋ : ℚ)) : pyRound q = ⌊q⌋ + 1 := by
  unfold pyRound
  rw [ratFloor_eq, if_neg (by linarith : ¬(q - (⌊q⌋ : ℚ) < 1 / 2)), if_pos h]

theorem pyRound_le_floor_add_one (q : ℚ) : pyRound q ≤ ⌊q⌋ + 1 := by
  rcases pyRound_cases q with h | ⟨h, _⟩ <;> omega

theorem pyRound_mono {q q' : ℚ} (h : q ≤ q') : pyRound q ≤ pyRound q' := by
  have hf : ⌊q⌋ ≤ ⌊q'⌋ := Int.floor_le_floor h
  by_cases hff : ⌊q⌋ = ⌊q'⌋
  · have hffQ : ((⌊q⌋ : ℤ) : ℚ) = ((⌊q'⌋ : ℤ) : ℚ) := by exact_mod_cast hff
    rcases pyRound_cases q with hc | ⟨hc, hhalf⟩
    · rw [hc, hff]
      exact pyRound_ge_floor q'
    · by_cases hgt : 1 / 2 < q' - (⌊q'⌋ : ℚ)
      · rw [hc, hff, pyRound_gt_half q' hgt]
      · have hqq : q = q' := by linarith
        rw [hqq]
  · have hlt : ⌊q⌋ < ⌊q'⌋ := lt_of_le_of_ne hf hff
    calc pyRound q ≤ ⌊q⌋ + 1 := pyRound_le_floor_add_one q
    _ ≤ ⌊q'⌋ := by omega
    _ ≤ pyRound q' := pyRound_ge_floor q'

theorem pyRound_intCast (n : ℤ) : pyRound ((n : ℤ) : ℚ) = n := by
  have h0 : ((n : ℤ) : ℚ) - (⌊((n : ℤ) : ℚ)⌋ : ℚ) < 1 / 2 := by
    rw [Int.floor_intCast]
    norm_num
  unfold pyRound
  rw [ratFloor_eq, if_pos h0, Int.floor_intCast]

/-! ### Breakdown-dict lemmas -/

theorem find_map_set_self (b : Breakdown) (k : Str) (v : Block) :
    (b.map (fun p => if p.1 == k then (k, v) else p)).find? (fun p => p.1 == k)
      = (b.find? (fun p => p.1 == k)).map (fun _ => (k, v)) := by
  induction b with
  | nil => rfl
  | cons p ps ih =>
    by_cases hp : (p.1 == k) = true
    · have hp1 : p.1 = k := beq_iff_eq.mp hp
      subst hp1
      simp [List.find?_cons]
    · rw [Bool.not_eq_true] at hp
      simp only [List.map_cons, show (if p.1 == k then (k, v) else p) = p from by simp [hp]]
      rw [show List.find? (fun q => q.1 == k)
            (p :: ps.map (fun q => if q.1 == k then (k, v) else q))
          = List.find? (fun q => q.1 == k) (ps.map (fun q => if q.1 == k then (k, v) else q))
          from by simp [List.find?_cons, hp]]
      rw [show List.find? (fun q => q.1 == k) (p :: ps) = List.find? (fun q => q.1 == k) ps
          from by simp [List.find?_cons, hp]]
      exact ih

theorem find_map_set_other (b : Breakdown) (k k' : Str) (v : Block)
    (hne : (k' == k) = false) :
    (b.map (fun p => if p.1 == k then (k, v) else p)).find? (fun p => p.1 == k')
      = b.find? (fun p => p.1 == k') := by
  have hkk : (k == k') = false := by
    rw [beq_eq_false_iff_ne] at hne ⊢
    exact fun hcon => hne hcon.symm
  induction b with
  | nil => rfl
  | cons p ps ih =>
    by_cases hp : (p.1 == k) = true
    · have hp1 : p.1 = k := beq_iff_eq.mp hp
      have hpk : (p.1 == k') = false := by rw [hp1]; exact hkk
      simp only [List.map_cons, if_pos hp]
      rw [show List.find? (fun q => q.1 == k')
            ((k, v) :: ps.map (fun q => if q.1 == k then (k, v) else q))
          = List.find? (fun q => q.1 == k') (ps.map (fun q => if q.1 == k then (k, v) else q))
          from by simp [List.find?_cons, hkk]]
      rw [show List.find? (fun q => q.1 == k') (p :: ps) = List.find? (fun q => q.1 == k') ps
          from by simp [List.find?_cons, hpk]]
      exact ih
    · rw [Bool.not_eq_true] at hp
      simp only [List.map_cons, show (if p.1 == k then (k, v) else p) = p from by simp [hp]]
      by_cases hp2 : (p.1 == k') = true
      · rw [show List.find? (fun q => q.1 == k')
              (p :: ps.map (fun q => if q.1 == k then (k, v) else q)) = some p
            from by simp [List.find?_cons, hp2]]
        rw [show List.find? (fun q => q.1 == k') (p :: ps) = some p
            from by simp [List.find?_cons, hp2]]
      · rw [Bool.not_eq_true] at hp2
        rw [show List.find? (fun q => q.1 == k')
              (p :: ps.map (fun q => if q.1 == k then (k, v) else q))
            = List.find? (fun q => q.1 == k') (ps.map (fun q => if q.1 == k then (k, v) else q))
            from by simp [List.find?_cons, hp2]]
        rw [show List.find? (fun q => q.1 == k') (p :: ps) = List.find? (fun q => q.1 == k') ps
            from by simp [List.find?_cons, hp2]]
        exact ih

theorem find_append_single_self (b : Breakdown) (k : Str) (v : Block)
    (hk : b.find? (fun p => p.1 == k) = none) :
    (b ++ [(k, v)]).find? (fun p => p.1 == k) = some (k, v) := by
  induction b with
  | nil => simp [List.find?_cons]
  | cons p ps ih =>
    by_cases hp : (p.1 == k) = true
    · simp [List.find?_cons, hp] at hk
    · rw [Bool.not_eq_true] at hp
      simp only [List.find?_cons, hp] at hk
      rw [List.cons_append]
      rw [show List.find? (fun q => q.1 == k) (p :: (ps ++ [(k, v)]))
          = List.find? (fun q => q.1 == k) (ps ++ [(k, v)])
          from by simp [List.find?_cons, hp]]
      exact ih hk

theorem find_append_single_other (b : Breakdown) (k k' : Str) (v : Block)
    (hne : (k' == k) = false) :
    (b ++ [(k, v)]).find? (fun p => p.1 == k') = b.find? (fun p => p.1 == k') := by
  have hkk : (k == k') = false := by
    rw [beq_eq_false_iff_ne] at hne ⊢
    exact fun hcon => hne hcon.symm
  induction b with
  | nil => simp [List.find?_cons, hkk]
  | cons p ps ih =>
    by_cases hp : (p.1 == k') = true
    · simp [List.find?_cons, hp]
    · rw [Bool.not_eq_true] at hp
      rw [List.cons_append]
      rw [show List.find? (fun q => q.1 == k') (p :: (ps ++ [(k, v)]))
          = List.find? (fun q => q.1 == k') (ps ++ [(k, v)])
          from by simp [List.find?_cons, hp]]
      rw [show List.find? (fun q => q.1 == k') (p :: ps) = List.find? (fun q => q.1 == k') ps
          from by simp [List.find?_cons, hp]]
      exact ih

theorem bdGet_bdSet_self (b : Breakdown) (k : Str) (v : Block) :
    bdGet (bdSet b k v) k = some v := by
  unfold bdSet
  by_cases h : (b.find? (fun p => p.1 == k)).isSome
  · rw [if_pos h]
    unfold bdGet
    rw [find_map_set_self]
    cases hf : b.find? (fun p => p.1 == k) with
    | none => rw [hf] at h; exact absurd h (by simp)
    | some p => rfl
  · rw [if_neg h]
    unfold bdGet
    rw [find_append_single_self b k v ?_]
    · rfl
    · cases hf : b.find? (fun p => p.1 == k) with
      | none => rfl
      | some p => rw [hf] at h; exact absurd (by simp : (Option.some p).isSome = true) h

theorem bdGet_bdSet_other (b : Breakdown) (k k' : Str) (v : Block)
    (hne : (k' == k) = false) :
    bdGet (bdSet b k v) k' = bdGet b k' := by
  unfold bdSet
  by_cases h : (b.find? (fun p => p.1 == k)).isSome
  · rw [if_pos h]
    unfold bdGet
    rw [find_map_set_other b k k' v hne]
  · rw [if_neg h]
    unfold bdGet
    rw [find_append_single_other b k k' v hne]

/-! ### Weighted-total bounds and monotonicity -/

theorem foldl_add_eq_sum {α : Type} (f : α → ℚ) (l : List α) (init : ℚ) :
    l.foldl (fun acc c => acc + f c) init = init + (l.map f).sum := by
  induction l generalizing init with
  | nil => simp
  | cons c cs ih =>
    simp only [List.foldl_cons, List.map_cons, List.sum_cons]
    rw [ih]
    ring

theorem sum_map_weight_cast (l : List RankingCategory) :
    (l.map (fun c => ((c.weight : ℤ) : ℚ))).sum = (((l.map (fun c => c.weight)).sum : ℤ) : ℚ) := by
  induction l with
  | nil => simp
  | cons c cs ih =>
    simp only [List.map_cons, List.sum_cons, ih]
    push_cast
    ring

theorem clampNormalized_bounds (r mx : ℚ) :
    0 ≤ (if mx ≤ 0 then 0 else max 0 (min 1 (r / mx)))
    ∧ (if mx ≤ 0 then 0 else max 0 (min 1 (r / mx))) ≤ 1 := by
  by_cases hm : mx ≤ 0
  · simp [hm]
  · simp only [if_neg hm]
    constructor
    · exact le_max_left 0 _
    · apply max_le
      · norm_num
      · exact min_le_left 1 _

theorem clampNormalized_mono (r r' mx : ℚ) (h : r ≤ r') :
    (if mx ≤ 0 then 0 else max 0 (min 1 (r / mx)))
      ≤ (if mx ≤ 0 then 0 else max 0 (min 1 (r' / mx))) := by
  by_cases hm : mx ≤ 0
  · simp [hm]
  · simp only [if_neg hm]
    have hmx : 0 < mx := lt_of_not_ge hm
    apply max_le_max (le_refl 0)
    apply min_le_min (le_refl 1)
    exact (div_le_div_iff_of_pos_right hmx).mpr h

theorem categoryContribution_nonneg (b : Breakdown) (cat : RankingCategory)
    (hw : 0 ≤ cat.weight) : 0 ≤ categoryContribution b cat := by
  unfold categoryContribution
  apply mul_nonneg (clampNormalized_bounds _ _).1
  exact_mod_cast hw

theorem categoryContribution_le_weight (b : Breakdown) (cat : RankingCategory)
    (hw : 0 ≤ cat.weight) : categoryContribution b cat ≤ (cat.weight : ℚ) := by
  unfold categoryContribution
  have hwq : (0 : ℚ) ≤ (cat.weight : ℚ) := by exact_mod_cast hw
  calc (if (categoryRawMax b (normTok cat.key)).2 ≤ 0 then 0
          else max 0 (min 1 ((categoryRawMax b (normTok cat.key)).1 / (categoryRawMax b (normTok cat.key)).2)))
        * (cat.weight : ℚ)
      ≤ 1 * (cat.weight : ℚ) :=
        mul_le_mul_of_nonneg_right (clampNormalized_bounds _ _).2 hwq
  _ = (cat.weight : ℚ) := one_mul _

theorem profile_weighted_total_bounds (b : Breakdown) (cfg : RankingConfig)
    (h : ValidRanking cfg) :
    0 ≤ profile_weighted_total b cfg ∧ profile_weighted_total b cfg ≤ 100 := by
  obtain ⟨-, hw, -, hsum, -⟩ := h
  unfold profile_weighted_total
  rw [foldl_add_eq_sum, zero_add]
  have h0 : 0 ≤ (cfg.categories.map (categoryContribution b)).sum := by
    apply List.sum_nonneg
    intro x hx
    obtain ⟨c, hc, rfl⟩ := List.mem_map.mp hx
    exact categoryContribution_nonneg b c (hw c hc).1
  have hle : (cfg.categories.map (categoryContribution b)).sum
      ≤ (cfg.categories.map (fun c => ((c.weight : ℤ) : ℚ))).sum := by
    apply List.sum_le_sum
    intro c hc
    exact categoryContribution_le_weight b c (hw c hc).1
  rw [sum_map_weight_cast, hsum] at hle
  exact ⟨pyRound_nonneg _ h0, pyRound_le_intCast _ 100 (by exact_mod_cast hle)⟩

theorem categoryRawMax_bdSet_points (b : Breakdown) (k : Str) (blk : Block) (p' : ℚ)
    (hget : bdGet b k = some blk) (key : Str) :
    (categoryRawMax (bdSet b k { category := blk.category, points := p', seniority_inferred := blk.seniority_inferred }) key).2
      = (categoryRawMax b key).2
    ∧ ((categoryRawMax (bdSet b k { category := blk.category, points := p', seniority_inferred := blk.seniority_inferred }) key).1
        = (categoryRawMax b key).1
      ∨ ((categoryRawMax (bdSet b k { category := blk.category, points := p', seniority_inferred := blk.seniority_inferred }) key).1 = p'
        ∧ (categoryRawMax b key).1 = blk.points)) := by
  set v : Block := { category := blk.category, points := p', seniority_inferred := blk.seniority_inferred }
  have hlookup : ∀ q : Str, bdGet (bdSet b k v) q
      = if (q == k) = true then some v else bdGet b q := by
    intro q
    by_cases hq : (q == k) = true
    · rw [if_pos hq, beq_iff_eq.mp hq, bdGet_bdSet_self]
    · rw [Bool.not_eq_true] at hq
      rw [if_neg (by simp [hq]), bdGet_bdSet_other b k q v hq]
  unfold categoryRawMax
  cases halias : aliasComponent key with
  | some comp =>
    dsimp only
    rw [hlookup comp]
    by_cases hc : (comp == k) = true
    · have hck : comp = k := beq_iff_eq.mp hc
      rw [if_pos hc]
      rw [hck, hget]
      exact ⟨rfl, Or.inr ⟨rfl, rfl⟩⟩
    · rw [Bool.not_eq_true] at hc
      rw [if_neg (by simp [hc])]
      cases hcomp : bdGet b comp with
      | some blockc => exact ⟨rfl, Or.inl rfl⟩
      | none =>
        rw [hlookup key]
        by_cases hk2 : (key == k) = true
        · have hkk : key = k := beq_iff_eq.mp hk2
          rw [if_pos hk2, hkk, hget]
          exact ⟨rfl, Or.inr ⟨rfl, rfl⟩⟩
        · rw [Bool.not_eq_true] at hk2
          rw [if_neg (by simp [hk2])]
          cases hkey : bdGet b key with
          | some blockk => exact ⟨rfl, Or.inl rfl⟩
          | none => exact ⟨rfl, Or.inl rfl⟩
  | none =>
    dsimp only
    rw [hlookup key]
    by_cases hk2 : (key == k) = true
    · have hkk : key = k := beq_iff_eq.mp hk2
      rw [if_pos hk2, hkk, hget]
      exact ⟨rfl, Or.inr ⟨rfl, rfl⟩⟩
    · rw [Bool.not_eq_true] at hk2
      rw [if_neg (by simp [hk2])]
      cases hkey : bdGet b key with
      | some blockk => exact ⟨rfl, Or.inl rfl⟩
      | none => exact ⟨rfl, Or.inl rfl⟩

theorem categoryContribution_mono_points (b : Breakdown) (k : Str) (blk : Block) (p' : ℚ)
    (hget : bdGet b k = some blk) (hp : blk.points ≤ p') (cat : RankingCategory)
    (hw : 0 ≤ cat.weight) :
    categoryContribution b cat
      ≤ categoryContribution
          (bdSet b k { category := blk.category, points := p', seniority_inferred := blk.seniority_inferred }) cat := by
  obtain ⟨hmax, hraw⟩ := categoryRawMax_bdSet_points b k blk p' hget (normTok cat.key)
  unfold categoryContribution
  dsimp only
  rw [hmax]
  apply mul_le_mul_of_nonneg_right _ (by exact_mod_cast hw)
  rcases hraw with heq | ⟨hnew, hold⟩
  · rw [heq]
  · rw [hnew, hold]
    exact clampNormalized_mono blk.points p' _ hp

theorem profile_weighted_total_mono (b : Breakdown) (k : Str) (blk : Block) (p' : ℚ)
    (cfg : RankingConfig) (h : ValidRanking cfg)
    (hget : bdGet b k = some blk) (hp : blk.points ≤ p') :
    profile_weighted_total b cfg
      ≤ profile_weighted_total
          (bdSet b k { category := blk.category, points := p', seniority_inferred := blk.seniority_inferred }) cfg := by
  obtain ⟨-, hw, -, -, -⟩ := h
  unfold profile_weighted_total
  rw [foldl_add_eq_sum, foldl_add_eq_sum, zero_add, zero_add]
  apply pyRound_mono
  apply List.sum_le_sum
  intro c hc
  exact categoryContribution_mono_points b k blk p' hget hp c (hw c hc).1

/-- C9: for every valid profile with ranking categories, the weighted total of
`_profile_weighted_total` lies in [0, 100], and raising the `points` of any
one `score_breakdown` entry (all other entries held fixed) never decreases
the weighted total — i.e. the total is a non-decreasing function of each
category's raw points, equivalently of its clamped normalized score. -/
theorem c9_weighted_total_bounds_and_monotone (cfg : RankingConfig) (h : ValidRanking cfg) :
    (∀ b : Breakdown, 0 ≤ profile_weighted_total b cfg ∧ profile_weighted_total b cfg ≤ 100)
    ∧ (∀ (b : Breakdown) (k : Str) (blk : Block) (p' : ℚ),
        bdGet b k = some blk → blk.points ≤ p' →
        profile_weighted_total b cfg
          ≤ profile_weighted_total
              (bdSet b k { category := blk.category, points := p', seniority_inferred := blk.seniority_inferred }) cfg) :=
  ⟨fun b => profile_weighted_total_bounds b cfg h,
   fun b k blk p' hget hp => profile_weighted_total_mono b k blk p' cfg h hget hp⟩

/-- Witness for C9: the default profile is valid, so its weighted totals are
bounded, and raising the recency entry's points from 0 to 10 in a concrete
breakdown does not decrease the total. -/
theorem c9_weighted_total_bounds_and_monotone_witness :
    (0 ≤ profile_weighted_total [] defaultRanking ∧ profile_weighted_total [] defaultRanking ≤ 100)
    ∧ profile_weighted_total [(strN "recency", { category := strN "unknown", points := 0, seniority_inferred := false })] defaultRanking
      ≤ profile_weighted_total
          (bdSet [(strN "recency", { category := strN "unknown", points := 0, seniority_inferred := false })]
            (strN "recency")
            { category := strN "unknown", points := 10, seniority_inferred := false }) defaultRanking := by
  have hvalid : ValidRanking defaultRanking := by decide
  constructor
  · exact (c9_weighted_total_bounds_and_monotone defaultRanking hvalid).1 []
  · exact (c9_weighted_total_bounds_and_monotone defaultRanking hvalid).2
      [(strN "recency", { category := strN "unknown", points := 0, seniority_inferred := false })]
      (strN "recency") { category := strN "unknown", points := 0, seniority_inferred := false } 10
      (by decide) (by norm_num)

/-! ### Fallback-sum bounds for `rescore_signal` -/

theorem dictLookup_bound (l : List (Str × ℚ)) (k : Str) (dflt : ℚ) (P : ℚ → Prop)
    (hl : ∀ p ∈ l, P p.2) (hd : P dflt) : P (dictLookup l k dflt) := by
  unfold dictLookup
  cases hf : l.find? (fun p => p.1 == k) with
  | none => simpa using hd
  | some p => simpa using hl p (List.mem_of_find?_eq_some hf)

theorem actionTypeScore_bounds (t : Str) : 5 ≤ actionTypeScore t ∧ actionTypeScore t ≤ 30 := by
  unfold actionTypeScore
  refine dictLookup_bound _ _ _ (fun q => 5 ≤ q ∧ q ≤ 30) ?_ (by norm_num)
  intro p hp
  simp only [ACTION_TYPE_SCORES, List.mem_cons, List.not_mem_nil, or_false] at hp
  rcases hp with rfl | rfl | rfl | rfl | rfl | rfl | rfl | rfl <;> norm_num

theorem seniorityScore_bounds (s : Str) : 5 ≤ seniorityScore s ∧ seniorityScore s ≤ 20 := by
  unfold seniorityScore
  refine dictLookup_bound _ _ _ (fun q => 5 ≤ q ∧ q ≤ 20) ?_ (by norm_num)
  intro p hp
  simp only [SENIORITY_SCORES, List.mem_cons, List.not_mem_nil, or_false] at hp
  rcases hp with rfl | rfl | rfl | rfl | rfl | rfl | rfl | rfl | rfl | rfl | rfl | rfl | rfl <;>
    norm_num

theorem domainFitScore_bounds (d : Str) : 5 ≤ domainFitScore d ∧ domainFitScore d ≤ 25 := by
  unfold domainFitScore
  refine dictLookup_bound _ _ _ (fun q => 5 ≤ q ∧ q ≤ 25) ?_ (by norm_num)
  intro p hp
  simp only [DOMAIN_FIT_SCORES, List.mem_cons, List.not_mem_nil, or_false] at hp
  rcases hp with rfl | rfl | rfl | rfl | rfl | rfl | rfl <;> norm_num

theorem institutionScore_bounds (t : Str) : 5 ≤ institutionScore t ∧ institutionScore t ≤ 15 := by
  unfold institutionScore
  refine dictLookup_bound _ _ _ (fun q => 5 ≤ q ∧ q ≤ 15) ?_ (by norm_num)
  intro p hp
  simp only [INSTITUTION_SCORES, List.mem_cons, List.not_mem_nil, or_false] at hp
  rcases hp with rfl | rfl | rfl | rfl | rfl <;> norm_num

theorem score_recency_bounds (now : ℚ) (s : Str) :
    0 ≤ (score_recency now s).points ∧ (score_recency now s).points ≤ 10 := by
  unfold score_recency
  cases parse_signal_date s with
  | none => norm_num
  | some d =>
    dsimp only
    split_ifs <;> norm_num

theorem bdSet_mem_strict (b : Breakdown) (k : Str) (v : Block) (p : Str × Block)
    (hp : p ∈ bdSet b k v) : p = (k, v) ∨ (p ∈ b ∧ p.1 ≠ k) := by
  unfold bdSet at hp
  by_cases h : (b.find? (fun q => q.1 == k)).isSome
  · rw [if_pos h] at hp
    obtain ⟨q, hq, hfq⟩ := List.mem_map.mp hp
    by_cases hqk : (q.1 == k) = true
    · left
      rw [if_pos hqk] at hfq
      exact hfq.symm
    · right
      rw [Bool.not_eq_true] at hqk
      rw [if_neg (by simp [hqk])] at hfq
      subst hfq
      exact ⟨hq, by simpa using hqk⟩
  · rw [if_neg h] at hp
    rcases List.mem_append.mp hp with hpb | hpk
    · right
      refine ⟨hpb, ?_⟩
      have hnone : b.find? (fun q => q.1 == k) = none := by
        cases hf : b.find? (fun q => q.1 == k) with
        | none => rfl
        | some q => rw [hf] at h; exact absurd (by simp : (Option.some q).isSome = true) h
      have := List.find?_eq_none.mp hnone p hpb
      simpa using this
    · left
      simpa using hpk

theorem bdSet_mem_weak (b : Breakdown) (k : Str) (v : Block) (p : Str × Block)
    (hp : p ∈ bdSet b k v) : p = (k, v) ∨ p ∈ b := by
  rcases bdSet_mem_strict b k v p hp with h | ⟨h, _⟩
  · exact Or.inl h
  · exact Or.inr h

theorem override_mem (sig : Signal) (b : Breakdown) (p : Str × Block)
    (hp : p ∈ apply_seniority_override sig b) :
    p = (strN "seniority", { category := strN "inferred (strategic partnership)", points := 15, seniority_inferred := true })
    ∨ p = (strN "seniority", { category := strN "inferred (strategic launch)", points := 12, seniority_inferred := true })
    ∨ p ∈ b := by
  unfold apply_seniority_override at hp
  dsimp only at hp
  split_ifs at hp with h1 h2
  · rcases bdSet_mem_weak _ _ _ p hp with h | h
    · exact Or.inl h
    · exact Or.inr (Or.inr h)
  · rcases bdSet_mem_weak _ _ _ p hp with h | h
    · exact Or.inr (Or.inl h)
    · exact Or.inr (Or.inr h)
  · exact Or.inr (Or.inr hp)

/-- Entry-level bound on the rebuilt breakdown: when the incoming breakdown
only holds the five standard components, every entry of the rebuilt
breakdown is a standard component whose points lie in `[0, componentMax]`. -/
theorem rescoreBreakdown_entry_bounds (now : ℚ) (sig : Signal)
    (hsub : ∀ p ∈ sig.score_breakdown, p.1 ∈ stdComponents) :
    ∀ p ∈ rescoreBreakdown now sig,
      p.1 ∈ stdComponents ∧ 0 ≤ p.2.points ∧ p.2.points ≤ componentMax p.1 := by
  intro p hp
  unfold rescoreBreakdown at hp
  have hcm1 : componentMax (strN "action_type") = 30 := rfl
  have hcm2 : componentMax (strN "seniority") = 20 := rfl
  have hcm3 : componentMax (strN "domain_fit") = 25 := rfl
  have hcm4 : componentMax (strN "institution_accessibility") = 15 := rfl
  have hcm5 : componentMax (strN "recency") = 10 := rfl
  rcases bdSet_mem_strict _ _ _ p hp with rfl | ⟨hp, hne5⟩
  · refine ⟨by simp [stdComponents], ?_⟩
    rw [hcm5]
    exact score_recency_bounds now _
  · rcases bdSet_mem_strict _ _ _ p hp with rfl | ⟨hp, hne4⟩
    · refine ⟨by simp [stdComponents], ?_⟩
      rw [hcm4]
      have h := institutionScore_bounds (pyLower (sig.institution_type.getD (strN "unknown")))
      exact ⟨by linarith [h.1], h.2⟩
    · rcases bdSet_mem_strict _ _ _ p hp with rfl | ⟨hp, hne3⟩
      · refine ⟨by simp [stdComponents], ?_⟩
        rw [hcm3]
        have h := domainFitScore_bounds (pyLower (sig.domain.getD (strN "other")))
        exact ⟨by linarith [h.1], h.2⟩
      · rcases override_mem sig _ p hp with rfl | hrest
        · refine ⟨by simp [stdComponents], ?_⟩
          rw [hcm2]
          norm_num
        · rcases hrest with rfl | hp2
          · refine ⟨by simp [stdComponents], ?_⟩
            rw [hcm2]
            norm_num
          · rcases bdSet_mem_strict _ _ _ p hp2 with rfl | ⟨hp3, hne2⟩
            · refine ⟨by simp [stdComponents], ?_⟩
              rw [hcm2]
              have h := seniorityScore_bounds (pyLower (sig.seniority.getD (strN "unknown")))
              exact ⟨by linarith [h.1], h.2⟩
            · rcases bdSet_mem_strict _ _ _ p hp3 with rfl | ⟨hp4, hne1⟩
              · refine ⟨by simp [stdComponents], ?_⟩
                rw [hcm1]
                have h := actionTypeScore_bounds (pyLower (sig.signal_type.getD (strN "other")))
                exact ⟨by linarith [h.1], h.2⟩
              · exfalso
                have := hsub p hp4
                simp only [stdComponents, List.mem_cons, List.not_mem_nil, or_false] at this
                rcases this with h | h | h | h | h
                · exact hne1 h
                · exact hne2 h
                · exact hne3 h
                · exact hne4 h
                · exact hne5 h

theorem bdSet_keys (b : Breakdown) (k : Str) (v : Block) :
    ((bdSet b k v).map (fun p => p.1) = b.map (fun p => p.1))
    ∨ ((bdSet b k v).map (fun p => p.1) = b.map (fun p => p.1) ++ [k]
        ∧ k ∉ b.map (fun p => p.1)) := by
  unfold bdSet
  by_cases h : (b.find? (fun q => q.1 == k)).isSome
  · left
    rw [if_pos h, List.map_map]
    apply List.map_congr_left
    intro q hq
    by_cases hqk : (q.1 == k) = true
    · have hq1 : q.1 = k := beq_iff_eq.mp hqk
      simp [Function.comp, if_pos hqk, hq1]
    · rw [Bool.not_eq_true] at hqk
      simp [Function.comp, hqk]
  · have hnone : b.find? (fun q => q.1 == k) = none := by
      cases hf : b.find? (fun q => q.1 == k) with
      | none => rfl
      | some q => rw [hf] at h; exact absurd (by simp : (Option.some q).isSome = true) h
    right
    refine ⟨by rw [if_neg h]; simp, ?_⟩
    intro hmem
    obtain ⟨q, hq, hq1⟩ := List.mem_map.mp hmem
    have hfq := List.find?_eq_none.mp hnone q hq
    simp [hq1] at hfq

theorem bdSet_keys_nodup (b : Breakdown) (k : Str) (v : Block)
    (h : (b.map (fun p => p.1)).Nodup) : ((bdSet b k v).map (fun p => p.1)).Nodup := by
  rcases bdSet_keys b k v with heq | ⟨heq, hnk⟩
  · rw [heq]
    exact h
  · rw [heq, List.nodup_append]
    refine ⟨h, List.nodup_singleton k, ?_⟩
    intro x hx hk
    rw [List.mem_singleton] at hk
    subst hk
    exact hnk hx

theorem override_keys_nodup (sig : Signal) (b : Breakdown)
    (h : (b.map (fun p => p.1)).Nodup) :
    ((apply_seniority_override sig b).map (fun p => p.1)).Nodup := by
  unfold apply_seniority_override
  dsimp only
  split_ifs
  · exact bdSet_keys_nodup _ _ _ h
  · exact bdSet_keys_nodup _ _ _ h
  · exact h

theorem rescoreBreakdown_keys_nodup (now : ℚ) (sig : Signal)
    (h : (sig.score_breakdown.map (fun p => p.1)).Nodup) :
    ((rescoreBreakdown now sig).map (fun p => p.1)).Nodup := by
  unfold rescoreBreakdown
  apply bdSet_keys_nodup
  apply bdSet_keys_nodup
  apply bdSet_keys_nodup
  apply override_keys_nodup
  apply bdSet_keys_nodup
  apply bdSet_keys_nodup
  exact h

theorem subperm_map {α β : Type} (f : α → β) {l1 l2 : List α} (h : l1.Subperm l2) :
    (l1.map f).Subperm (l2.map f) := by
  obtain ⟨l, hperm, hsub⟩ := h
  exact ⟨l.map f, hperm.map f, hsub.map f⟩

theorem subperm_sum_le (l1 l2 : List ℚ) (h : l1.Subperm l2) (h0 : ∀ x ∈ l2, 0 ≤ x) :
    l1.sum ≤ l2.sum := by
  obtain ⟨l, hperm, hsub⟩ := h
  calc l1.sum = l.sum := (List.Perm.sum_eq hperm).symm
  _ ≤ l2.sum := hsub.sum_le_sum h0

theorem breakdown_sum_bounds (b : Breakdown)
    (hnodup : (b.map (fun p => p.1)).Nodup)
    (hb : ∀ p ∈ b, p.1 ∈ stdComponents ∧ 0 ≤ p.2.points ∧ p.2.points ≤ componentMax p.1) :
    0 ≤ breakdownPointsSum b ∧ breakdownPointsSum b ≤ 100 := by
  have e1 : componentMax (strN "action_type") = 30 := rfl
  have e2 : componentMax (strN "seniority") = 20 := rfl
  have e3 : componentMax (strN "domain_fit") = 25 := rfl
  have e4 : componentMax (strN "institution_accessibility") = 15 := rfl
  have e5 : componentMax (strN "recency") = 10 := rfl
  constructor
  · apply List.sum_nonneg
    intro x hx
    obtain ⟨p, hp, rfl⟩ := List.mem_map.mp hx
    exact (hb p hp).2.1
  · have h1 : (b.map (fun p => p.2.points)).sum ≤ (b.map (fun p => componentMax p.1)).sum :=
      List.sum_le_sum (fun p hp => (hb p hp).2.2)
    have h2 : b.map (fun p => componentMax p.1)
        = (b.map (fun p => p.1)).map componentMax := by
      rw [List.map_map]
      rfl
    have hsubp : (b.map (fun p => p.1)).Subperm stdComponents :=
      List.subperm_of_subset hnodup (fun x hx => by
        obtain ⟨p, hp, rfl⟩ := List.mem_map.mp hx
        exact (hb p hp).1)
    have h4 : ((b.map (fun p => p.1)).map componentMax).sum
        ≤ (stdComponents.map componentMax).sum := by
      apply subperm_sum_le _ _ (subperm_map componentMax hsubp)
      intro x hx
      simp only [stdComponents, List.map_cons, List.map_nil, e1, e2, e3, e4, e5,
        List.mem_cons, List.not_mem_nil, or_false] at hx
      rcases hx with rfl | rfl | rfl | rfl | rfl <;> norm_num
    have h5 : (stdComponents.map componentMax).sum = 100 := by
      simp only [stdComponents, List.map_cons, List.map_nil, e1, e2, e3, e4, e5]
      norm_num
    calc breakdownPointsSum b ≤ (b.map (fun p => componentMax p.1)).sum := h1
    _ = ((b.map (fun p => p.1)).map componentMax).sum := by rw [h2]
    _ ≤ (stdComponents.map componentMax).sum := h4
    _ = 100 := h5

theorem pyInt_eq_floor (q : ℚ) (h : 0 ≤ q) : pyInt q = ⌊q⌋ := by
  unfold pyInt
  rw [Int.tdiv_eq_ediv (Rat.num_nonneg.mpr h) (by exact_mod_cast Nat.zero_le q.den)]
  exact Rat.floor_def.symm

theorem pyInt_bounds (q : ℚ) (h0 : 0 ≤ q) (h1 : q ≤ 100) : 0 ≤ pyInt q ∧ pyInt q ≤ 100 := by
  rw [pyInt_eq_floor q h0]
  constructor
  · exact Int.floor_nonneg.mpr h0
  · calc ⌊q⌋ ≤ ⌊(100 : ℚ)⌋ := Int.floor_le_floor h1
    _ = 100 := by norm_num

/-- C3 (amended): the `total_score` assigned by `rescore_signal` lies in
[0, 100] for every valid profile with ranking categories (whatever the
incoming `score_breakdown` contains); and on the no-profile (or
empty-categories) fallback path it lies in [0, 100] provided the incoming
`score_breakdown` carries only the five standard components under distinct
keys.  The original unconditional claim fails on the fallback path, which
sums every incoming breakdown entry (see the counterexample). -/
theorem c3_total_score_bounds (now : ℚ) (sig : Signal)
    (profile_ranking : Option RankingConfig)
    (hvalid : ∀ cfg, profile_ranking = some cfg → ValidRanking cfg)
    (hfb : (profile_ranking = none ∨ ∃ cfg, profile_ranking = some cfg ∧ cfg.categories = []) →
        (sig.score_breakdown.map (fun p => p.1)).Nodup
        ∧ ∀ p ∈ sig.score_breakdown, p.1 ∈ stdComponents) :
    ∃ t : ℤ, (rescore_signal now profile_ranking sig).total_score = some ((t : ℤ) : ℚ)
      ∧ 0 ≤ t ∧ t ≤ 100 := by
  have hfallback :
      ((profile_ranking = none ∨ ∃ cfg, profile_ranking = some cfg ∧ cfg.categories = []) →
        0 ≤ pyInt (breakdownPointsSum (rescoreBreakdown now sig))
        ∧ pyInt (breakdownPointsSum (rescoreBreakdown now sig)) ≤ 100) := by
    intro hcase
    obtain ⟨hnodup, hsub⟩ := hfb hcase
    have hbounds := breakdown_sum_bounds (rescoreBreakdown now sig)
      (rescoreBreakdown_keys_nodup now sig hnodup)
      (rescoreBreakdown_entry_bounds now sig hsub)
    exact pyInt_bounds _ hbounds.1 hbounds.2
  unfold rescore_signal
  cases hpr : profile_ranking with
  | some cfg =>
    dsimp only
    by_cases hc : cfg.categories = []
    · rw [if_neg (by simpa using hc)]
      refine ⟨pyInt (breakdownPointsSum (rescoreBreakdown now sig)), rfl, ?_⟩
      exact hfallback (Or.inr ⟨cfg, hpr, hc⟩)
    · rw [if_pos (by simpa using hc)]
      refine ⟨profile_weighted_total (rescoreBreakdown now sig) cfg, rfl, ?_⟩
      exact profile_weighted_total_bounds _ cfg (hvalid cfg hpr)
  | none =>
    dsimp only
    refine ⟨pyInt (breakdownPointsSum (rescoreBreakdown now sig)), rfl, ?_⟩
    exact hfallback (Or.inl hpr)

/-- Witness for C3: the empty signal under no profile, and a signal under the
valid default profile. -/
theorem c3_total_score_bounds_witness :
    (∃ t : ℤ, (rescore_signal 0 none emptySignal).total_score = some ((t : ℤ) : ℚ)
      ∧ 0 ≤ t ∧ t ≤ 100)
    ∧ (∃ t : ℤ, (rescore_signal 0 (some defaultRanking) c2Sig).total_score = some ((t : ℤ) : ℚ)
      ∧ 0 ≤ t ∧ t ≤ 100) := by
  constructor
  · exact c3_total_score_bounds 0 emptySignal none
      (fun cfg h => Option.noConfusion h)
      (fun _ => ⟨by decide, by decide⟩)
  · exact c3_total_score_bounds 0 c2Sig (some defaultRanking)
      (fun cfg h => by
        rw [show cfg = defaultRanking from (Option.some.injEq _ _).mp h.symm]
        decide)
      (fun hcase => by
        rcases hcase with h | ⟨cfg, hcfg, hcats⟩
        · exact Option.noConfusion h
        · rw [show cfg = defaultRanking from (Option.some.injEq _ _).mp hcfg.symm] at hcats
          exact absurd hcats (by decide))

/-- Counterexample for C3 as originally stated: with no active profile,
`rescore_signal` sums every entry of the incoming `score_breakdown`, so a
signal carrying a 1000-point extra entry is assigned `total_score = 1020`,
outside [0, 100]. -/
theorem c3_total_score_counterexample :
    (rescore_signal 0 none c3ExtraSig).total_score = some ((1020 : ℤ) : ℚ)
    ∧ ¬(((1020 : ℤ) : ℚ) ≤ 100) := by
  have hb6 : rescoreBreakdown 0 c3ExtraSig =
      [ (strN "bonus", { category := strN "extra", points := 1000, seniority_inferred := false })
      , (strN "action_type", { category := strN "other", points := 5, seniority_inferred := false })
      , (strN "seniority", { category := strN "unknown", points := 5, seniority_inferred := false })
      , (strN "domain_fit", { category := strN "other", points := 5, seniority_inferred := false })
      , (strN "institution_accessibility", { category := strN "unknown", points := 5, seniority_inferred := false })
      , (strN "recency", { category := strN "unknown", points := 0, seniority_inferred := false }) ] := rfl
  have hsum : breakdownPointsSum (rescoreBreakdown 0 c3ExtraSig) = 1020 := by
    rw [hb6]
    unfold breakdownPointsSum
    norm_num
  have hint : pyInt (1020 : ℚ) = 1020 := by
    rw [pyInt_eq_floor _ (by norm_num)]
    norm_num
  constructor
  · unfold rescore_signal
    dsimp only
    rw [hsum, hint]
  · norm_num

/-! ### Domain-rebalancer lemmas (rebalance_ai_focus) -/

theorem countAiPriority_cons (s : Signal) (l : List Signal) :
    countAiPriority (s :: l)
      = (if isAiPriority s.domain then 1 else 0) + countAiPriority l := by
  unfold countAiPriority
  rw [List.filter_cons]
  by_cases h : isAiPriority s.domain
  · rw [if_pos h, if_pos h]
    simp only [List.length_cons]
    push_cast
    ring
  · rw [if_neg h, if_neg h]
    simp

theorem promoteLoop_rel (target : ℤ) (l : List Signal) (c : ℤ) :
    List.Forall₂ promRel l (promoteLoop target l c) := by
  induction l generalizing c with
  | nil => exact List.Forall₂.nil
  | cons s rest ih =>
    unfold promoteLoop
    by_cases h1 : target ≤ c
    · rw [if_pos h1]
      exact List.forall₂_same.mpr (fun x _ => Or.inl rfl)
    · rw [if_neg h1]
      by_cases h2 : isAiPriority s.domain = true
      · rw [if_pos h2]
        exact List.Forall₂.cons (Or.inl rfl) (ih c)
      · rw [if_neg h2]
        by_cases h3 : hasAiHint s = true
        · rw [if_pos h3]
          exact List.Forall₂.cons
            (Or.inr ⟨Bool.eq_false_iff.mpr h2, h3, rfl⟩) (ih (c + 1))
        · rw [if_neg h3]
          exact List.Forall₂.cons (Or.inl rfl) (ih c)

theorem promoteLoop_count (target : ℤ) (l : List Signal) (c : ℤ)
    (hc : countAiPriority l ≤ c) :
    countAiPriority (promoteLoop target l c) + (c - countAiPriority l)
      ≤ max c target := by
  induction l generalizing c with
  | nil =>
    unfold promoteLoop countAiPriority
    simp
  | cons s rest ih =>
    rw [countAiPriority_cons] at hc
    unfold promoteLoop
    by_cases h1 : target ≤ c
    · rw [if_pos h1]
      have h := le_max_left c target
      linarith
    · rw [if_neg h1]
      by_cases h2 : isAiPriority s.domain = true
      · rw [if_pos h2]
        rw [if_pos h2] at hc
        rw [countAiPriority_cons, if_pos h2, countAiPriority_cons, if_pos h2]
        have h := ih c (by linarith)
        linarith
      · rw [if_neg h2]
        rw [if_neg h2] at hc
        by_cases h3 : hasAiHint s = true
        · rw [if_pos h3]
          have hpr : isAiPriority (some (strN "ai_implementation")) = true := by
            decide
          rw [countAiPriority_cons,
            show ({ s with domain := some (strN "ai_implementation") } : Signal).domain
              = some (strN "ai_implementation") from rfl,
            if_pos hpr, countAiPriority_cons, if_neg h2]
          have h := ih (c + 1) (by linarith)
          have hm : max (c + 1) target = target := max_eq_right (by omega)
          rw [hm] at h
          have h4 := le_max_right c target
          linarith
        · rw [if_neg h3]
          rw [countAiPriority_cons, if_neg h2, countAiPriority_cons, if_neg h2]
          have h := ih c (by linarith)
          linarith

/-- Unfolding lemma: on a non-empty list the rebalancer compares the priority
count of the normalised list against `max(1, round(len * ratio))` and either
returns the normalised list or runs the promotion loop. -/
theorem rebalance_eval (s : List Signal) (frac : ℚ) (t : ℤ) (hs : ¬ s = [])
    (ht : max 1 (pyRound ((s.length : ℚ) * frac)) = t) :
    rebalance_ai_focus s frac
      = (if t ≤ countAiPriority (s.map normalizeSignalDomain)
         then s.map normalizeSignalDomain
         else promoteLoop t (s.map normalizeSignalDomain)
                (countAiPriority (s.map normalizeSignalDomain))) := by
  unfold rebalance_ai_focus
  rw [if_neg hs]
  dsimp only
  rw [ht]

theorem normalizeSignalDomain_eq (sig : Signal) (d : Str)
    (hd : normalize_domain (sig.domain.getD []) = d) :
    normalizeSignalDomain sig = { sig with domain := some d } := by
  unfold normalizeSignalDomain
  rw [hd]

/-- Python `round` at an exact half above an even integer rounds down to it. -/
theorem pyRound_half_add_even (n : ℤ) (hn : n % 2 = 0) :
    pyRound ((n : ℚ) + 1 / 2) = n := by
  have hf : ⌊(n : ℚ) + 1 / 2⌋ = n := by
    rw [Int.floor_eq_iff]
    constructor
    · linarith
    · push_cast
      linarith
  have h1 : ¬ ((n : ℚ) + 1 / 2 - ((⌊(n : ℚ) + 1 / 2⌋ : ℤ) : ℚ) < 1 / 2) := by
    rw [hf, not_lt]
    push_cast
    linarith
  have h2 : ¬ ((1 : ℚ) / 2 < (n : ℚ) + 1 / 2 - ((⌊(n : ℚ) + 1 / 2⌋ : ℤ) : ℚ)) := by
    rw [hf, not_lt]
    push_cast
    linarith
  unfold pyRound
  rw [ratFloor_eq, if_neg h1, if_neg h2, hf, if_pos hn]

/-- **C7** (amended): for every record list and ratio, `rebalance_ai_focus`
(1) relates the normalised input to the output record-by-record: each record
is either unchanged or promoted from a non-priority domain to
`ai_implementation` on the strength of an AI hint in its text — promotion is
one-directional, scans in original order, and touches only the `domain`
field; (2) when the priority count of the normalised list already meets the
target `max(1, round_half_even(len * ratio))` no promotion happens at all;
(3) the output's priority count never exceeds `max(priority count, target)` —
the loop stops once the target is reached; and (4) re-running on an
already-balanced set whose domains are fixed points of normalisation is a
no-op.  The code's target is `max(1, round(len * ratio))`, not the spec's
`ceil(len * ratio)`, and idempotence on balanced sets needs the
normalisation-fixed-point hypothesis — see the counterexample. -/
theorem c7_rebalance_promotion_contract (s : List Signal) (frac : ℚ) :
    List.Forall₂ promRel (s.map normalizeSignalDomain) (rebalance_ai_focus s frac)
    ∧ (max 1 (pyRound ((s.length : ℚ) * frac))
          ≤ countAiPriority (s.map normalizeSignalDomain)
        → rebalance_ai_focus s frac = s.map normalizeSignalDomain)
    ∧ countAiPriority (rebalance_ai_focus s frac)
        ≤ max (countAiPriority (s.map normalizeSignalDomain))
            (max 1 (pyRound ((s.length : ℚ) * frac)))
    ∧ ((∀ r ∈ s, normalizeSignalDomain r = r)
        → max 1 (pyRound ((s.length : ℚ) * frac)) ≤ countAiPriority s
        → rebalance_ai_focus s frac = s) := by
  by_cases hs : s = []
  · subst hs
    have h0 : rebalance_ai_focus [] frac = [] := by
      unfold rebalance_ai_focus
      rw [if_pos rfl]
    have h1 : countAiPriority [] = 0 := by
      unfold countAiPriority
      simp
    refine ⟨?_, ?_, ?_, ?_⟩
    · rw [h0]
      exact List.Forall₂.nil
    · intro _
      rw [h0]
      rfl
    · rw [h0]
      simp only [List.map_nil, h1]
      exact le_max_left 0 _
    · intro _ _
      rw [h0]
  · have hre := rebalance_eval s frac (max 1 (pyRound ((s.length : ℚ) * frac))) hs rfl
    refine ⟨?_, ?_, ?_, ?_⟩
    · rw [hre]
      by_cases hb : max 1 (pyRound ((s.length : ℚ) * frac))
          ≤ countAiPriority (s.map normalizeSignalDomain)
      · rw [if_pos hb]
        exact List.forall₂_same.mpr (fun x _ => Or.inl rfl)
      · rw [if_neg hb]
        exact promoteLoop_rel _ _ _
    · intro hb
      rw [hre, if_pos hb]
    · rw [hre]
      by_cases hb : max 1 (pyRound ((s.length : ℚ) * frac))
          ≤ countAiPriority (s.map normalizeSignalDomain)
      · rw [if_pos hb]
        exact le_max_left _ _
      · rw [if_neg hb]
        have h := promoteLoop_count (max 1 (pyRound ((s.length : ℚ) * frac)))
          (s.map normalizeSignalDomain)
          (countAiPriority (s.map normalizeSignalDomain)) (le_refl _)
        linarith
    · intro hfix hb
      have hmapeq : s.map normalizeSignalDomain = s := by
        have h2 : s.map normalizeSignalDomain = s.map id :=
          List.map_congr_left (fun a ha => hfix a ha)
        rw [h2, List.map_id]
      rw [hre, hmapeq, if_pos hb]

/-- Witness for C7: a singleton list with a normalised priority domain is
already balanced (target `max(1, round(0.5)) = 1`), so the rebalancer returns
it unchanged. -/
theorem c7_rebalance_promotion_contract_witness :
    rebalance_ai_focus [c7PSig] (1 / 2) = [c7PSig].map normalizeSignalDomain
    ∧ rebalance_ai_focus [c7PSig] (1 / 2) = [c7PSig] := by
  have hn : normalize_domain (strN "ai_implementation") = strN "ai_implementation" := by
    simp +decide [normalize_domain, pyReplace, pyStrip, ftrim, rtrim, isWsCh,
      pyLower, lowerCh, aiDomainSynonym, strN]
  have hfix : normalizeSignalDomain c7PSig = c7PSig := by
    rw [normalizeSignalDomain_eq c7PSig (strN "ai_implementation") hn]
    decide
  have hmap : [c7PSig].map normalizeSignalDomain = [c7PSig] := by
    simp only [List.map_cons, List.map_nil, hfix]
  have hround : max 1 (pyRound ((([c7PSig] : List Signal).length : ℚ) * (1 / 2))) = 1 := by
    have hl : ((([c7PSig] : List Signal).length : ℚ) * (1 / 2)) = ((0 : ℤ) : ℚ) + 1 / 2 := by
      rw [show ([c7PSig] : List Signal).length = 1 from rfl]
      push_cast
      ring
    rw [hl, pyRound_half_add_even 0 (by decide)]
    decide
  have h := c7_rebalance_promotion_contract [c7PSig] (1 / 2)
  have hb : max 1 (pyRound ((([c7PSig] : List Signal).length : ℚ) * (1 / 2)))
      ≤ countAiPriority ([c7PSig].map normalizeSignalDomain) := by
    rw [hround, hmap]
    decide
  refine ⟨h.2.1 hb, h.2.2.2 ?_ ?_⟩
  · intro r hr
    have hr' : r = c7PSig := List.mem_singleton.mp hr
    rw [hr']
    exact hfix
  · rw [hround]
    decide

/-- Counterexample for C7.  Part 1: five records, one with priority domain
`ai_implementation` and four hint-bearing records with domain `other`, ratio
0.5.  The spec's target is `ceil(5 * 0.5) = 3`, but the code's target is
`max(1, round(5 * 0.5)) = 2` (banker's rounding of 2.5), so only one record
is promoted and the output holds 2 priority records, not 3, although further
promotable records remain.  Part 2: a balanced two-record list whose second
domain is `"ai  transformation"` (an output the rebalancer itself produces
from a three-space domain).  Re-running changes that domain to
`ai_transformation` — the second normalisation pass collapses the double
space — refuting unconditional idempotence on already-balanced sets. -/
theorem c7_rebalance_counterexample :
    ((rebalance_ai_focus c7Ex1 (1 / 2)).map (fun r => r.domain)
        = [some (strN "ai_implementation"), some (strN "ai_implementation"),
           some (strN "other"), some (strN "other"), some (strN "other")]
      ∧ Int.ceil ((c7Ex1.length : ℚ) * (1 / 2)) = 3
      ∧ countAiPriority (rebalance_ai_focus c7Ex1 (1 / 2)) = 2
      ∧ hasAiHint c7HSig = true ∧ isAiPriority c7HSig.domain = false)
    ∧ (rebalance_ai_focus c7Ex2 (1 / 2) = [c7PSig, c7Spaced2Sig]
      ∧ countAiPriority [c7PSig, c7Spaced2Sig] = 1
      ∧ max 1 (pyRound ((([c7PSig, c7Spaced2Sig] : List Signal).length : ℚ) * (1 / 2))) = 1
      ∧ (rebalance_ai_focus [c7PSig, c7Spaced2Sig] (1 / 2)).map (fun r => r.domain)
          ≠ ([c7PSig, c7Spaced2Sig] : List Signal).map (fun r => r.domain)) := by
  have hnp : normalize_domain (strN "ai_implementation") = strN "ai_implementation" := by
    simp +decide [normalize_domain, pyReplace, pyStrip, ftrim, rtrim, isWsCh,
      pyLower, lowerCh, aiDomainSynonym, strN]
  have hno : normalize_domain (strN "other") = strN "other" := by
    simp +decide [normalize_domain, pyReplace, pyStrip, ftrim, rtrim, isWsCh,
      pyLower, lowerCh, aiDomainSynonym, strN]
  have hn3 : normalize_domain (strN "ai   transformation") = strN "ai  transformation" := by
    simp +decide [normalize_domain, pyReplace, pyStrip, ftrim, rtrim, isWsCh,
      pyLower, lowerCh, aiDomainSynonym, strN]
  have hn2 : normalize_domain (strN "ai  transformation") = strN "ai_transformation" := by
    simp +decide [normalize_domain, pyReplace, pyStrip, ftrim, rtrim, isWsCh,
      pyLower, lowerCh, aiDomainSynonym, strN]
  have hfixp : normalizeSignalDomain c7PSig = c7PSig := by
    rw [normalizeSignalDomain_eq c7PSig (strN "ai_implementation") hnp]
    decide
  have hfixh : normalizeSignalDomain c7HSig = c7HSig := by
    rw [normalizeSignalDomain_eq c7HSig (strN "other") hno]
    decide
  have hfix3 : normalizeSignalDomain c7SpacedSig = c7Spaced2Sig := by
    rw [normalizeSignalDomain_eq c7SpacedSig (strN "ai  transformation") hn3]
    decide
  have hfix2 : normalizeSignalDomain c7Spaced2Sig = c7TransSig := by
    rw [normalizeSignalDomain_eq c7Spaced2Sig (strN "ai_transformation") hn2]
    decide
  have hmap1 : c7Ex1.map normalizeSignalDomain = c7Ex1 := by
    simp only [c7Ex1, List.map_cons, List.map_nil, hfixp, hfixh]
  have hround5 : max 1 (pyRound ((c7Ex1.length : ℚ) * (1 / 2))) = 2 := by
    have hl : ((c7Ex1.length : ℚ) * (1 / 2)) = ((2 : ℤ) : ℚ) + 1 / 2 := by
      rw [show c7Ex1.length = 5 from rfl]
      push_cast
      ring
    rw [hl, pyRound_half_add_even 2 (by decide)]
    decide
  have h1 : rebalance_ai_focus c7Ex1 (1 / 2)
      = promoteLoop 2 c7Ex1 (countAiPriority c7Ex1) := by
    rw [rebalance_eval c7Ex1 (1 / 2) 2 (by decide) hround5, hmap1, if_neg (by decide)]
  have hround2 : max 1 (pyRound ((c7Ex2.length : ℚ) * (1 / 2))) = 1 := by
    have hl : ((c7Ex2.length : ℚ) * (1 / 2)) = ((1 : ℤ) : ℚ) := by
      rw [show c7Ex2.length = 2 from rfl]
      push_cast
      ring
    rw [hl, pyRound_intCast]
    decide
  have hmap2 : c7Ex2.map normalizeSignalDomain = [c7PSig, c7Spaced2Sig] := by
    simp only [c7Ex2, List.map_cons, List.map_nil, hfixp, hfix3]
  have hmid : rebalance_ai_focus c7Ex2 (1 / 2) = [c7PSig, c7Spaced2Sig] := by
    rw [rebalance_eval c7Ex2 (1 / 2) 1 (by decide) hround2, hmap2, if_pos (by decide)]
  have hroundmid :
      max 1 (pyRound ((([c7PSig, c7Spaced2Sig] : List Signal).length : ℚ) * (1 / 2))) = 1 := by
    have hl : ((([c7PSig, c7Spaced2Sig] : List Signal).length : ℚ) * (1 / 2))
        = ((1 : ℤ) : ℚ) := by
      rw [show ([c7PSig, c7Spaced2Sig] : List Signal).length = 2 from rfl]
      push_cast
      ring
    rw [hl, pyRound_intCast]
    decide
  have hmap3 : ([c7PSig, c7Spaced2Sig] : List Signal).map normalizeSignalDomain
      = [c7PSig, c7TransSig] := by
    simp only [List.map_cons, List.map_nil, hfixp, hfix2]
  have hfinal : rebalance_ai_focus [c7PSig, c7Spaced2Sig] (1 / 2) = [c7PSig, c7TransSig] := by
    rw [rebalance_eval [c7PSig, c7Spaced2Sig] (1 / 2) 1 (by decide) hroundmid, hmap3,
      if_pos (by decide)]
  refine ⟨⟨?_, ?_, ?_, by decide, by decide⟩, hmid, by decide, hroundmid, ?_⟩
  · rw [h1]
    decide
  · have hl : ((c7Ex1.length : ℚ) * (1 / 2)) = 5 / 2 := by
      rw [show c7Ex1.length = 5 from rfl]
      push_cast
      ring
    rw [hl]
    norm_num [Int.ceil_eq_iff]
  · rw [h1]
    decide
  · rw [hfinal]
    decide

/-! ### Lexicographic-order lemmas for the output window -/

theorem strLt_irrefl (a : Str) : strLt a a = false := by
  induction a with
  | nil => rfl
  | cons c cs ih =>
    unfold strLt
    rw [if_neg (lt_irrefl c), if_neg (lt_irrefl c)]
    exact ih

theorem strLt_asymm (a b : Str) (h : strLt a b = true) : strLt b a = false := by
  induction a generalizing b with
  | nil =>
    cases b with
    | nil => exact absurd h (by simp [strLt])
    | cons d ds => rfl
  | cons c cs ih =>
    cases b with
    | nil => exact absurd h (by simp [strLt])
    | cons d ds =>
      unfold strLt at h ⊢
      by_cases h1 : c < d
      · rw [if_pos h1] at h
        rw [if_neg (show ¬ d < c by omega), if_pos h1]
      · rw [if_neg h1] at h
        by_cases h2 : d < c
        · rw [if_pos h2] at h
          exact absurd h (by simp)
        · rw [if_neg h2] at h
          rw [if_neg h2, if_neg h1]
          exact ih ds h

theorem strLt_trans (a b c : Str) (hab : strLt a b = true) (hbc : strLt b c = true) :
    strLt a c = true := by
  induction a generalizing b c with
  | nil =>
    cases b with
    | nil => exact absurd hab (by simp [strLt])
    | cons d ds =>
      cases c with
      | nil => exact absurd hbc (by simp [strLt])
      | cons e es => rfl
  | cons x xs ih =>
    cases b with
    | nil => exact absurd hab (by simp [strLt])
    | cons d ds =>
      cases c with
      | nil => exact absurd hbc (by simp [strLt])
      | cons e es =>
        unfold strLt at hab hbc ⊢
        by_cases h1 : x < d
        · rw [if_pos h1] at hab
          by_cases h2 : d < e
          · rw [if_pos (show x < e by omega)]
          · rw [if_neg h2] at hbc
            by_cases h3 : e < d
            · rw [if_pos h3] at hbc
              exact absurd hbc (by simp)
            · have hde : d = e := by omega
              subst hde
              rw [if_pos h1]
        · rw [if_neg h1] at hab
          by_cases h1' : d < x
          · rw [if_pos h1'] at hab
            exact absurd hab (by simp)
          · rw [if_neg h1'] at hab
            have hxd : x = d := by omega
            subst hxd
            by_cases h2 : x < e
            · rw [if_pos h2]
            · rw [if_neg h2] at hbc ⊢
              by_cases h3 : e < x
              · rw [if_pos h3] at hbc
                exact absurd hbc (by simp)
              · rw [if_neg h3] at hbc ⊢
                exact ih ds es hab hbc

/-- Asymmetry of the lexicographic `(date, timestamp)` comparison. -/
theorem lexLt_asymm (d1 t1 d2 t2 : Str)
    (h : (strLt d1 d2 || (d1 == d2 && strLt t1 t2)) = true) :
    (strLt d2 d1 || (d2 == d1 && strLt t2 t1)) = false := by
  simp only [Bool.or_eq_true, Bool.and_eq_true, beq_iff_eq] at h
  rcases h with h | ⟨heq, ht⟩
  · have h1 : strLt d2 d1 = false := strLt_asymm _ _ h
    have h2 : d2 ≠ d1 := by
      intro he
      subst he
      exact absurd h (by simp [strLt_irrefl])
    rw [h1]
    simp [h2]
  · subst heq
    have h1 : strLt t2 t1 = false := strLt_asymm _ _ ht
    simp [strLt_irrefl, h1]

/-- Transitivity of the lexicographic `(date, timestamp)` comparison. -/
theorem lexLt_trans (d1 t1 d2 t2 d3 t3 : Str)
    (h1 : (strLt d1 d2 || (d1 == d2 && strLt t1 t2)) = true)
    (h2 : (strLt d2 d3 || (d2 == d3 && strLt t2 t3)) = true) :
    (strLt d1 d3 || (d1 == d3 && strLt t1 t3)) = true := by
  simp only [Bool.or_eq_true, Bool.and_eq_true, beq_iff_eq] at h1 h2 ⊢
  rcases h1 with h1 | ⟨he1, ht1⟩
  · rcases h2 with h2 | ⟨he2, ht2⟩
    · exact Or.inl (strLt_trans _ _ _ h1 h2)
    · subst he2
      exact Or.inl h1
  · subst he1
    rcases h2 with h2 | ⟨he2, ht2⟩
    · exact Or.inl h2
    · subst he2
      exact Or.inr ⟨rfl, strLt_trans _ _ _ ht1 ht2⟩

theorem windowKeyLt_asymm (a b : Signal) (h : windowKeyLt a b = true) :
    windowKeyLt b a = false :=
  lexLt_asymm _ _ _ _ h

theorem windowKeyLt_trans (a b c : Signal) (h1 : windowKeyLt a b = true)
    (h2 : windowKeyLt b c = true) : windowKeyLt a c = true :=
  lexLt_trans _ _ _ _ _ _ h1 h2

theorem insertDesc_perm (x : Signal) (l : List Signal) :
    List.Perm (insertDesc x l) (x :: l) := by
  induction l with
  | nil => exact List.Perm.refl _
  | cons y ys ih =>
    unfold insertDesc
    by_cases h : windowKeyLt y x = true
    · rw [if_pos h]
    · rw [if_neg h]
      exact List.Perm.trans (List.Perm.cons y ih) (List.Perm.swap x y ys)

theorem insertDesc_mem (x : Signal) (l : List Signal) (z : Signal)
    (hz : z ∈ insertDesc x l) : z = x ∨ z ∈ l := by
  have h := (insertDesc_perm x l).mem_iff.mp hz
  simpa using h

theorem insertDesc_sorted (x : Signal) (l : List Signal)
    (hl : l.Pairwise (fun a b => windowKeyLt a b = false)) :
    (insertDesc x l).Pairwise (fun a b => windowKeyLt a b = false) := by
  induction l with
  | nil => exact List.pairwise_singleton _ _
  | cons y ys ih =>
    rcases List.pairwise_cons.mp hl with ⟨hy, hys⟩
    unfold insertDesc
    by_cases h : windowKeyLt y x = true
    · rw [if_pos h]
      refine List.pairwise_cons.mpr ⟨?_, hl⟩
      intro z hz
      rcases List.mem_cons.mp hz with heq | hzys
      · rw [heq]
        exact windowKeyLt_asymm _ _ h
      · by_cases hxz : windowKeyLt x z = true
        · have hyz := windowKeyLt_trans y x z h hxz
          rw [hy z hzys] at hyz
          exact absurd hyz (by simp)
        · exact Bool.eq_false_iff.mpr hxz
    · rw [if_neg h]
      refine List.pairwise_cons.mpr ⟨?_, ih hys⟩
      intro z hz
      rcases insertDesc_mem x ys z hz with heq | hzys
      · rw [heq]
        exact Bool.eq_false_iff.mpr h
      · exact hy z hzys

theorem sortDesc_perm (signals : List Signal) :
    List.Perm (sortDesc signals) signals := by
  suffices h : ∀ (l acc : List Signal),
      List.Perm (l.foldl (fun acc x => insertDesc x acc) acc) (l ++ acc) by
    simpa using h signals []
  intro l
  induction l with
  | nil =>
    intro acc
    simpa using List.Perm.refl acc
  | cons x xs ih =>
    intro acc
    rw [List.foldl_cons]
    have h1 := ih (insertDesc x acc)
    have h2 : List.Perm (xs ++ insertDesc x acc) (xs ++ (x :: acc)) :=
      List.Perm.append_left xs (insertDesc_perm x acc)
    exact (h1.trans h2).trans List.perm_middle

theorem sortDesc_sorted (signals : List Signal) :
    (sortDesc signals).Pairwise (fun a b => windowKeyLt a b = false) := by
  suffices h : ∀ (l acc : List Signal),
      acc.Pairwise (fun a b => windowKeyLt a b = false) →
      (l.foldl (fun acc x => insertDesc x acc) acc).Pairwise
        (fun a b => windowKeyLt a b = false) by
    exact h signals [] List.Pairwise.nil
  intro l
  induction l with
  | nil =>
    intro acc hacc
    simpa using hacc
  | cons x xs ih =>
    intro acc hacc
    rw [List.foldl_cons]
    exact ih (insertDesc x acc) (insertDesc_sorted x acc hacc)

/-- **C8** (amended): with a non-negative `max_count`, `enforce_output_window`
returns exactly the first `max_count` elements of the input stably sorted by
`(signal_date, run_timestamp)` descending as raw strings: the sorted list is
a permutation of the input and pairwise non-ascending; the output never
exceeds `max_count` records, contains only input records (nothing is
fabricated when fewer than `min_count` survive), is the whole input whenever
the input fits in `max_count`, and within it no *blank*-date record precedes
a nonblank-date one.  Unparsable but nonblank dates are NOT sent to the end:
they sort as ordinary strings (see the counterexample). -/
theorem c8_output_window_contract (signals : List Signal) (min_count max_count : ℤ)
    (hmax : 0 ≤ max_count) :
    enforce_output_window signals min_count max_count
        = (sortDesc signals).take max_count.toNat
    ∧ List.Perm (sortDesc signals) signals
    ∧ (sortDesc signals).Pairwise (fun a b => windowKeyLt a b = false)
    ∧ (enforce_output_window signals min_count max_count).length ≤ max_count.toNat
    ∧ (∀ r ∈ enforce_output_window signals min_count max_count, r ∈ signals)
    ∧ ((signals.length : ℤ) ≤ max_count
        → List.Perm (enforce_output_window signals min_count max_count) signals)
    ∧ (enforce_output_window signals min_count max_count).Pairwise
        (fun a b => ¬(a.signal_date.getD [] = [] ∧ b.signal_date.getD [] ≠ [])) := by
  have he : enforce_output_window signals min_count max_count
      = (sortDesc signals).take max_count.toNat := by
    unfold enforce_output_window pySlice
    rw [if_pos hmax]
  have hperm := sortDesc_perm signals
  have hsorted := sortDesc_sorted signals
  refine ⟨he, hperm, hsorted, ?_, ?_, ?_, ?_⟩
  · rw [he, List.length_take]
    exact min_le_left _ _
  · intro r hr
    rw [he] at hr
    exact hperm.mem_iff.mp (List.take_subset _ _ hr)
  · intro hlen
    rw [he]
    have hlen2 : (sortDesc signals).length ≤ max_count.toNat := by
      rw [hperm.length_eq]
      exact (Int.le_toNat hmax).mpr hlen
    rw [List.take_of_length_le hlen2]
    exact hperm
  · rw [he]
    have hp := List.Pairwise.sublist (List.take_sublist max_count.toNat (sortDesc signals))
      hsorted
    refine hp.imp ?_
    intro a b hab hcon
    rcases hcon with ⟨ha, hb⟩
    have htrue : windowKeyLt a b = true := by
      unfold windowKeyLt
      rw [ha]
      cases hbd : b.signal_date.getD [] with
      | nil => exact absurd hbd hb
      | cons c cs => simp [strLt]
    rw [htrue] at hab
    exact absurd hab (by simp)

/-- Witness for C8: a singleton list with `max_count = 5` — the window is the
sorted (hence identical) list itself, a permutation of the input. -/
theorem c8_output_window_contract_witness :
    (0 : ℤ) ≤ 5
    ∧ enforce_output_window [c8DatedSig] 0 5 = (sortDesc [c8DatedSig]).take (5 : ℤ).toNat
    ∧ List.Perm (enforce_output_window [c8DatedSig] 0 5) [c8DatedSig] := by
  have h := c8_output_window_contract [c8DatedSig] 0 5 (by decide)
  exact ⟨by decide, h.1, h.2.2.2.2.2.1 (by decide)⟩

/-- Counterexample for C8: `"not-a-date"` is unparsable yet nonblank, and as
a raw string it sorts *above* the genuine date `"2025-01-01"` (`'n' > '2'`),
so with `max_count = 1` the window keeps the unparsable record and drops the
dated one — unparsable dates do not sort last as the spec asserts; only
blank ones do. -/
theorem c8_output_window_counterexample :
    enforce_output_window [c8DatedSig, c8NoiseSig] 0 1 = [c8NoiseSig]
    ∧ parse_signal_date (c8NoiseSig.signal_date.getD []) = none
    ∧ c8NoiseSig.signal_date.getD [] ≠ []
    ∧ parse_signal_date (c8DatedSig.signal_date.getD []) ≠ none := by
  refine ⟨by decide, by decide, by decide, by decide⟩

/-! ### Identity provenance through write_scored_run -/

theorem applyScoreFields_identity (r : Row) (f : ScoreFields) (t : Str) :
    rowIdentity (applyScoreFields r f t) = rowIdentity r := rfl

theorem mkScoredRow_identity (sig_id run_id : Nat) (t : Str) (sig : Signal) :
    rowIdentity (mkScoredRow sig_id run_id t sig) = sigIdentity sig := rfl

theorem scoredFold_identity (run_id : Nat) (scored_at : Str) (sigs : List Signal) :
    ∀ (st : List Row × Nat) (r : Row),
      r ∈ (sigs.foldl (scoredStep run_id scored_at) st).1 →
      rowIdentity r ∈ st.1.map rowIdentity
      ∨ rowIdentity r ∈ sigs.map sigIdentity := by
  induction sigs with
  | nil =>
    intro st r hr
    exact Or.inl (List.mem_map_of_mem _ hr)
  | cons sig rest ih =>
    intro st r hr
    rw [List.foldl_cons] at hr
    rcases ih (scoredStep run_id scored_at st sig) r hr with h | h
    · cases hf : st.1.find? (rowMatches run_id sig) with
      | some m =>
        have hstep : (scoredStep run_id scored_at st sig).1
            = st.1.map (fun r0 => if r0.id == m.id
                then applyScoreFields r0 (extract_score_fields sig) scored_at else r0) := by
          unfold scoredStep
          rw [hf]
        rw [hstep, List.map_map] at h
        have hmapeq : st.1.map (rowIdentity ∘ (fun r0 => if r0.id == m.id
            then applyScoreFields r0 (extract_score_fields sig) scored_at else r0))
            = st.1.map rowIdentity := by
          refine List.map_congr_left ?_
          intro a _
          show rowIdentity (if a.id == m.id
              then applyScoreFields a (extract_score_fields sig) scored_at else a)
            = rowIdentity a
          by_cases hid : (a.id == m.id) = true
          · rw [if_pos hid]
            rfl
          · rw [if_neg hid]
        rw [hmapeq] at h
        exact Or.inl h
      | none =>
        have hstep : (scoredStep run_id scored_at st sig).1
            = st.1 ++ [mkScoredRow st.2 run_id scored_at sig] := by
          unfold scoredStep
          rw [hf]
        rw [hstep, List.map_append] at h
        rcases List.mem_append.mp h with h2 | h2
        · exact Or.inl h2
        · right
          have h3 : rowIdentity r = rowIdentity (mkScoredRow st.2 run_id scored_at sig) := by
            simpa using h2
          rw [h3, mkScoredRow_identity]
          exact List.mem_map_of_mem _ (List.mem_cons_self sig rest)
    · right
      rw [List.map_cons]
      exact List.mem_cons_of_mem _ h

/-- **C4** (amended): every row in the signals table after `write_scored_run`
draws its identity columns either from a row already in the table or from one
of the scored report's signal dicts.  The scoring pass *does* fabricate rows
whose identity is absent from the ingestion run it scores: on a failed match
it inserts a row carrying the report signal's identity — see the
counterexample. -/
theorem c4_identity_provenance (report : ScoredReport) (db : DB) (r : Row)
    (hr : r ∈ (write_scored_run report db).signals) :
    rowIdentity r ∈ db.signals.map rowIdentity
    ∨ rowIdentity r ∈ report.signals.map sigIdentity := by
  unfold write_scored_run at hr
  dsimp only at hr
  exact scoredFold_identity _ report.timestamp report.signals (db.signals, db.nextSigId) r hr

/-- Witness for C4: the pre-existing row survives the pass and its identity is
found among the table's own identities. -/
theorem c4_identity_provenance_witness :
    rowIdentity c4OldRow ∈ c4Db.signals.map rowIdentity
    ∨ rowIdentity c4OldRow ∈ c4Report.signals.map sigIdentity :=
  c4_identity_provenance c4Report c4Db c4OldRow (by decide)

/-- Counterexample for C4 as stated: the run ingested only "Old Corp", yet
scoring a report naming "New Corp" (no row matches it) inserts a brand-new
row with the report's identity — an identity absent from the ingestion pass. -/
theorem c4_identity_provenance_counterexample :
    (write_scored_run c4Report c4Db).signals.map rowIdentity
        = [rowIdentity c4OldRow, sigIdentity c4NewSig]
    ∧ sigIdentity c4NewSig ∉ c4Db.signals.map rowIdentity := by
  exact ⟨by decide, by decide⟩

/-! ### Idempotence of write_scored_run -/

theorem applyScoreFields_nonScore (r : Row) (f : ScoreFields) (t : Str) :
    nonScore (applyScoreFields r f t) = nonScore r := rfl

theorem nonScore_id (r : Row) : (nonScore r).1 = r.id := rfl

theorem rowMatches_congr (rid : Nat) (sig : Signal) (r r' : Row)
    (h : nonScore r = nonScore r') : rowMatches rid sig r = rowMatches rid sig r' := by
  simp only [nonScore, Prod.mk.injEq] at h
  obtain ⟨hid, hrun, hinst, hcty, hreg, htyp, hdate, hdom, htier, hsen, hurl, hsum⟩ := h
  unfold rowMatches
  rw [hrun, hinst, htyp, hdate, hurl]

theorem applyScoreFields_congr (r r' : Row) (f : ScoreFields) (t : Str)
    (h : nonScore r = nonScore r') : applyScoreFields r f t = applyScoreFields r' f t := by
  cases r
  cases r'
  simp only [nonScore, Prod.mk.injEq] at h
  obtain ⟨hid, hrun, hinst, hcty, hreg, htyp, hdate, hdom, htier, hsen, hurl, hsum⟩ := h
  subst hid hrun hinst hcty hreg htyp hdate hdom htier hsen hurl hsum
  rfl

theorem applyScoreFields_applyScoreFields (r : Row) (f f2 : ScoreFields) (t t2 : Str) :
    applyScoreFields (applyScoreFields r f t) f2 t2 = applyScoreFields r f2 t2 := rfl

theorem applyScoreFields_mkScoredRow (i rid : Nat) (t : Str) (sig : Signal) :
    applyScoreFields (mkScoredRow i rid t sig) (extract_score_fields sig) t
      = mkScoredRow i rid t sig := rfl

theorem mkScoredRow_id (i rid : Nat) (t : Str) (sig : Signal) :
    (mkScoredRow i rid t sig).id = i := rfl

theorem mkScoredRow_matches (i rid : Nat) (t : Str) (sig : Signal)
    (hinst : sig.institution ≠ none) (htyp : sig.signal_type ≠ none) :
    rowMatches rid sig (mkScoredRow i rid t sig) = true := by
  cases hi : sig.institution with
  | none => exact absurd hi hinst
  | some x =>
    cases ht : sig.signal_type with
    | none => exact absurd ht htyp
    | some y =>
      simp [rowMatches, mkScoredRow, sqlEqOpt, coalesceEq, hi, ht]

theorem scoredStep_wf (rid : Nat) (t : Str) (st : List Row × Nat) (sig : Signal)
    (h : WFst st) : WFst (scoredStep rid t st sig) := by
  obtain ⟨hnd, hlt⟩ := h
  unfold scoredStep
  cases hf : st.1.find? (rowMatches rid sig) with
  | some m =>
    dsimp only
    constructor
    · rw [List.map_map]
      have hcomp : ((fun r => r.id) ∘ (fun r0 => if r0.id == m.id
          then applyScoreFields r0 (extract_score_fields sig) t else r0))
          = fun r => r.id := by
        funext a
        show (if a.id == m.id
            then applyScoreFields a (extract_score_fields sig) t else a).id = a.id
        by_cases hid : (a.id == m.id) = true
        · rw [if_pos hid]
          rfl
        · rw [if_neg hid]
      rw [hcomp]
      exact hnd
    · intro r hr
      rcases List.mem_map.mp hr with ⟨a, ha, hae⟩
      rw [← hae]
      by_cases hid : (a.id == m.id) = true
      · rw [if_pos hid]
        exact hlt a ha
      · rw [if_neg hid]
        exact hlt a ha
  | none =>
    dsimp only
    constructor
    · rw [List.map_append]
      rw [List.nodup_append]
      refine ⟨hnd, List.nodup_singleton _, ?_⟩
      intro a ha hb
      have ha' : a < st.2 := by
        rcases List.mem_map.mp ha with ⟨r, hr, hre⟩
        rw [← hre]
        exact hlt r hr
      have hb' : a = st.2 := by
        simpa [mkScoredRow_id] using hb
      omega
    · intro r hr
      rcases List.mem_append.mp hr with h2 | h2
      · have := hlt r h2
        omega
      · have : r = mkScoredRow st.2 rid t sig := by simpa using h2
        rw [this, mkScoredRow_id]
        omega

theorem scoredFold_wf (rid : Nat) (t : Str) (sigs : List Signal) :
    ∀ st : List Row × Nat, WFst st → WFst (sigs.foldl (scoredStep rid t) st) := by
  induction sigs with
  | nil => intro st h; exact h
  | cons sig rest ih =>
    intro st h
    rw [List.foldl_cons]
    exact ih _ (scoredStep_wf rid t st sig h)

theorem scoredFold_stab (rid : Nat) (t : Str) (sigs : List Signal) :
    ∀ st : List Row × Nat,
      ∃ ext,
        (sigs.foldl (scoredStep rid t) st).1.map nonScore = st.1.map nonScore ++ ext
        ∧ st.2 ≤ (sigs.foldl (scoredStep rid t) st).2
        ∧ ∀ e ∈ ext, st.2 ≤ e.1 := by
  induction sigs with
  | nil =>
    intro st
    exact ⟨[], by simp, le_refl _, by simp⟩
  | cons sig rest ih =>
    intro st
    rw [List.foldl_cons]
    rcases ih (scoredStep rid t st sig) with ⟨ext, hmap, hle, hid⟩
    cases hf : st.1.find? (rowMatches rid sig) with
    | some m =>
      have hstep : scoredStep rid t st sig
          = (st.1.map (fun r0 => if r0.id == m.id
              then applyScoreFields r0 (extract_score_fields sig) t else r0), st.2) := by
        unfold scoredStep
        rw [hf]
      rw [hstep] at hmap hle hid ⊢
      refine ⟨ext, ?_, hle, hid⟩
      rw [hmap, List.map_map]
      have hcomp : (nonScore ∘ (fun r0 => if r0.id == m.id
          then applyScoreFields r0 (extract_score_fields sig) t else r0))
          = nonScore := by
        funext a
        show nonScore (if a.id == m.id
            then applyScoreFields a (extract_score_fields sig) t else a) = nonScore a
        by_cases hid2 : (a.id == m.id) = true
        · rw [if_pos hid2]
          rfl
        · rw [if_neg hid2]
      rw [hcomp]
    | none =>
      have hstep : scoredStep rid t st sig
          = (st.1 ++ [mkScoredRow st.2 rid t sig], st.2 + 1) := by
        unfold scoredStep
        rw [hf]
      rw [hstep] at hmap hle hid ⊢
      refine ⟨nonScore (mkScoredRow st.2 rid t sig) :: ext, ?_, ?_, ?_⟩
      case refine_2 =>
        have h2 : st.2 ≤ st.2 + 1 := by omega
        exact le_trans h2 hle
      · rw [hmap, List.map_append]
        simp
      · intro e he
        rcases List.mem_cons.mp he with he2 | he2
        · rw [he2, nonScore_id, mkScoredRow_id]
        · have := hid e he2
          omega

theorem TriRel.collapse : ∀ {ss ts : List Row}, TriRel ss ss ts → ts = ss := by
  intro ss
  induction ss with
  | nil =>
    intro ts h
    cases h
    rfl
  | cons s rest ih =>
    intro ts h
    cases h with
    | cons hns hd htl =>
      rcases hd with hd | hd
      · rw [hd, ih htl]
      · rw [hd, ih htl]

theorem TriRel.mem_ns : ∀ {ss l1s ts : List Row}, TriRel ss l1s ts →
    ∀ tr ∈ ts, ∃ s ∈ ss, nonScore tr = nonScore s := by
  intro ss l1s ts h
  induction h with
  | nil => intro tr htr; cases htr
  | cons hns hd _ ih =>
    intro tr htr
    rcases List.mem_cons.mp htr with heq | hmem
    · rcases hd with hd | hd
      · exact ⟨_, List.mem_cons_self _ _, by rw [heq, hd]⟩
      · exact ⟨_, List.mem_cons_self _ _, by rw [heq, hd, hns]⟩
    · rcases ih tr hmem with ⟨s2, hs2, hs2e⟩
      exact ⟨s2, List.mem_cons_of_mem _ hs2, hs2e⟩

theorem TriRel.find?_none {P : Row → Bool}
    (hP : ∀ r r', nonScore r = nonScore r' → P r = P r') :
    ∀ {ss l1s ts : List Row}, TriRel ss l1s ts →
      ss.find? P = none → ts.find? P = none := by
  intro ss l1s ts h
  induction h with
  | nil => intro _; rfl
  | cons hns hd htl ih =>
    intro hfind
    rename_i s l1r tr ss2 l1s2 ts2
    rw [List.find?_cons] at hfind ⊢
    have hptr : P tr = P s := by
      rcases hd with hd | hd
      · rw [hd]
      · rw [hd, hP _ _ hns]
    cases hp : P s with
    | true =>
      rw [hp] at hfind
      exact absurd hfind (by simp)
    | false =>
      rw [hp] at hfind
      rw [hptr, hp]
      exact ih hfind

theorem TriRel.find?_some {P : Row → Bool}
    (hP : ∀ r r', nonScore r = nonScore r' → P r = P r') :
    ∀ {ss l1s ts : List Row}, TriRel ss l1s ts →
      ∀ {m : Row}, ss.find? P = some m →
        ∃ tr, ts.find? P = some tr ∧ nonScore tr = nonScore m := by
  intro ss l1s ts h
  induction h with
  | nil => intro m hfind; cases hfind
  | cons hns hd htl ih =>
    intro m hfind
    rw [List.find?_cons] at hfind ⊢
    rename_i s l1r tr ss2 l1s2 ts2
    have hptr : P tr = P s := by
      rcases hd with hd | hd
      · rw [hd]
      · rw [hd, hP _ _ hns]
    cases hp : P s with
    | true =>
      rw [hp] at hfind
      have hm : s = m := by
        simpa using hfind
      rw [hptr, hp]
      refine ⟨tr, rfl, ?_⟩
      rw [← hm]
      rcases hd with hd | hd
      · rw [hd]
      · rw [hd, hns]
    | false =>
      rw [hp] at hfind
      rw [hptr, hp]
      exact ih hfind

theorem TriRel.map_update {i : Nat} {f : ScoreFields} {t : Str} :
    ∀ {ss l1s ts : List Row}, TriRel ss l1s ts →
      TriRel (ss.map (fun r => if r.id == i then applyScoreFields r f t else r)) l1s
        (ts.map (fun r => if r.id == i then applyScoreFields r f t else r)) := by
  intro ss l1s ts h
  induction h with
  | nil => exact TriRel.nil
  | cons hns hd htl ih =>
    rename_i s l1r tr ss2 l1s2 ts2
    rw [List.map_cons, List.map_cons]
    refine TriRel.cons ?_ ?_ ih
    · by_cases hid : (s.id == i) = true
      · rw [if_pos hid]
        rw [applyScoreFields_nonScore]
        exact hns
      · rw [if_neg hid]
        exact hns
    · have hideq : tr.id = s.id := by
        rcases hd with hd | hd
        · rw [hd]
        · rw [hd]
          have := congrArg Prod.fst hns
          simpa [nonScore_id] using this
      by_cases hid : (s.id == i) = true
      · rw [if_pos hid, if_pos (by rw [hideq]; exact hid)]
        left
        rcases hd with hd | hd
        · rw [hd]
        · rw [hd]
          exact applyScoreFields_congr _ _ _ _ hns
      · rw [if_neg hid, if_neg (by rw [hideq]; exact hid)]
        exact hd

theorem TriRel.extend {s l1r tr : Row} :
    ∀ {ss l1s ts : List Row}, TriRel ss l1s ts →
      nonScore l1r = nonScore s → (tr = s ∨ tr = l1r) →
      TriRel (ss ++ [s]) (l1s ++ [l1r]) (ts ++ [tr]) := by
  intro ss l1s ts h
  induction h with
  | nil =>
    intro hns hd
    exact TriRel.cons hns hd TriRel.nil
  | cons hns2 hd2 htl ih =>
    intro hns hd
    exact TriRel.cons hns2 hd2 (ih hns hd)

theorem TriRel.of_prefix : ∀ {ss l1s : List Row},
    l1s.map nonScore = ss.map nonScore → TriRel ss l1s l1s := by
  intro ss
  induction ss with
  | nil =>
    intro l1s h
    cases l1s with
    | nil => exact TriRel.nil
    | cons a l => exact absurd h (by simp)
  | cons s rest ih =>
    intro l1s h
    cases l1s with
    | nil => exact absurd h (by simp)
    | cons a l =>
      rw [List.map_cons, List.map_cons] at h
      have h1 : nonScore a = nonScore s := (List.cons.injEq _ _ _ _ ▸ h).1
      have h2 : l.map nonScore = rest.map nonScore := (List.cons.injEq _ _ _ _ ▸ h).2
      exact TriRel.cons h1 (Or.inr rfl) (ih h2)

theorem map_update_ids_out (i : Nat) (f : ScoreFields) (t : Str) (L : List Row)
    (h : ∀ r ∈ L, r.id ≠ i) :
    L.map (fun r => if r.id == i then applyScoreFields r f t else r) = L := by
  have h2 : L.map (fun r => if r.id == i then applyScoreFields r f t else r) = L.map id := by
    refine List.map_congr_left ?_
    intro a ha
    show (if a.id == i then applyScoreFields a f t else a) = id a
    rw [if_neg (by simpa using h a ha)]
    rfl
  rw [h2, List.map_id]

theorem update_map_nonScore (i : Nat) (f : ScoreFields) (t : Str) (L : List Row) :
    (L.map (fun r => if r.id == i then applyScoreFields r f t else r)).map nonScore
      = L.map nonScore := by
  rw [List.map_map]
  refine List.map_congr_left ?_
  intro a _
  show nonScore (if a.id == i then applyScoreFields a f t else a) = nonScore a
  by_cases hid : (a.id == i) = true
  · rw [if_pos hid]
    rfl
  · rw [if_neg hid]

/-- Replay lemma: running the per-signal reconciliation loop a second time,
starting from the final row list of a first run whose report signals all carry
a non-null institution and signal_type, reproduces that final state.  `ts` is
the second run's in-progress row list, related position-by-position to the
first run's in-progress list by `TriRel`. -/
theorem scoredFold_bisim (rid : Nat) (t : Str) :
    ∀ (sigs : List Signal) (S : List Row × Nat) (final : List Row × Nat) (ts : List Row),
      (∀ sig ∈ sigs, sig.institution ≠ none ∧ sig.signal_type ≠ none) →
      sigs.foldl (scoredStep rid t) S = final →
      WFst S →
      (final.1.map (fun r => r.id)).Nodup →
      TriRel S.1 (final.1.take S.1.length) ts →
      sigs.foldl (scoredStep rid t) (ts ++ final.1.drop S.1.length, final.2) = final := by
  intro sigs
  induction sigs with
  | nil =>
    intro S final ts hnn hfold hwf hnd htri
    rw [List.foldl_nil] at hfold
    subst hfold
    rw [List.take_length] at htri
    have hts := TriRel.collapse htri
    rw [List.foldl_nil, hts, List.drop_length, List.append_nil]
  | cons sig rest ih =>
    intro S final ts hnn hfold hwf hnd htri
    rw [List.foldl_cons] at hfold ⊢
    have hP : ∀ r r', nonScore r = nonScore r'
        → rowMatches rid sig r = rowMatches rid sig r' :=
      fun r r' h => rowMatches_congr rid sig r r' h
    have hnn1 := hnn sig (List.mem_cons_self _ _)
    have hnnrest : ∀ s2 ∈ rest, s2.institution ≠ none ∧ s2.signal_type ≠ none :=
      fun s2 hs2 => hnn s2 (List.mem_cons_of_mem _ hs2)
    have hwf' := scoredStep_wf rid t S sig hwf
    cases hf : S.1.find? (rowMatches rid sig) with
    | some m =>
      have hstep : scoredStep rid t S sig
          = (S.1.map (fun r0 => if r0.id == m.id
              then applyScoreFields r0 (extract_score_fields sig) t else r0), S.2) := by
        unfold scoredStep
        rw [hf]
      rw [hstep] at hfold hwf'
      rcases scoredFold_stab rid t rest (S.1.map (fun r0 => if r0.id == m.id
          then applyScoreFields r0 (extract_score_fields sig) t else r0), S.2)
        with ⟨ext, hsmap, hsle, hsid⟩
      rw [hfold] at hsmap
      rw [update_map_nonScore] at hsmap
      have htailid : ∀ r ∈ final.1.drop S.1.length, S.2 ≤ r.id := by
        intro r hr
        have h1 : nonScore r ∈ (final.1.drop S.1.length).map nonScore :=
          List.mem_map_of_mem _ hr
        rw [List.map_drop, hsmap] at h1
        rw [show S.1.length = (List.map nonScore S.1).length from (List.length_map _ _).symm,
          List.drop_left] at h1
        have h2 := hsid _ h1
        rw [nonScore_id] at h2
        exact h2
      have hmlt : m.id < S.2 := hwf.2 m (List.mem_of_find?_eq_some hf)
      rcases TriRel.find?_some hP htri hf with ⟨tr, htrf, htrns⟩
      have htrid : tr.id = m.id := by
        have h2 := congrArg Prod.fst htrns
        simpa [nonScore_id] using h2
      have hfind2 : (ts ++ final.1.drop S.1.length).find? (rowMatches rid sig) = some tr := by
        rw [List.find?_append, htrf]
        rfl
      have hmaptail : (final.1.drop S.1.length).map (fun r0 => if r0.id == m.id
          then applyScoreFields r0 (extract_score_fields sig) t else r0)
          = final.1.drop S.1.length := by
        refine map_update_ids_out _ _ _ _ ?_
        intro r hr
        have := htailid r hr
        omega
      have hstep2 : scoredStep rid t (ts ++ final.1.drop S.1.length, final.2) sig
          = (ts.map (fun r0 => if r0.id == m.id
              then applyScoreFields r0 (extract_score_fields sig) t else r0)
              ++ final.1.drop S.1.length, final.2) := by
        unfold scoredStep
        dsimp only
        rw [hfind2]
        dsimp only
        rw [htrid, List.map_append, hmaptail]
      rw [hstep2]
      have htri' : TriRel (S.1.map (fun r0 => if r0.id == m.id
            then applyScoreFields r0 (extract_score_fields sig) t else r0))
          (final.1.take S.1.length)
          (ts.map (fun r0 => if r0.id == m.id
            then applyScoreFields r0 (extract_score_fields sig) t else r0)) :=
        TriRel.map_update htri
      have hcall := ih (S.1.map (fun r0 => if r0.id == m.id
            then applyScoreFields r0 (extract_score_fields sig) t else r0), S.2) final
        (ts.map (fun r0 => if r0.id == m.id
            then applyScoreFields r0 (extract_score_fields sig) t else r0))
        hnnrest hfold hwf' hnd (by
          dsimp only
          rw [List.length_map]
          exact htri')
      rw [List.length_map] at hcall
      exact hcall
    | none =>
      have hstep : scoredStep rid t S sig
          = (S.1 ++ [mkScoredRow S.2 rid t sig], S.2 + 1) := by
        unfold scoredStep
        rw [hf]
      rw [hstep] at hfold hwf'
      rcases scoredFold_stab rid t rest (S.1 ++ [mkScoredRow S.2 rid t sig], S.2 + 1)
        with ⟨ext, hsmap, hsle, hsid⟩
      rw [hfold] at hsmap
      have hlenf : final.1.length = S.1.length + 1 + ext.length := by
        have h2 := congrArg List.length hsmap
        simp only [List.length_map, List.length_append, List.length_cons,
          List.length_nil] at h2
        omega
      have hlt1 : S.1.length < final.1.length := by omega
      have hns0 : nonScore (final.1[S.1.length]) = nonScore (mkScoredRow S.2 rid t sig) := by
        have h1 : (final.1.map nonScore)[S.1.length]?
            = some (nonScore (final.1[S.1.length])) := by
          rw [List.getElem?_map, List.getElem?_eq_getElem hlt1]
          rfl
        rw [hsmap, List.getElem?_append, if_pos (by simp), List.getElem?_map] at h1
        have hlt2 : S.1.length < (S.1 ++ [mkScoredRow S.2 rid t sig]).length := by simp
        rw [List.getElem?_eq_getElem hlt2] at h1
        rw [List.getElem_concat_length S.1 (mkScoredRow S.2 rid t sig) S.1.length rfl hlt2] at h1
        have h3 := Option.some.inj h1
        exact h3.symm
      have htail : final.1.drop S.1.length
          = final.1[S.1.length] :: final.1.drop (S.1.length + 1) :=
        List.drop_eq_getElem_cons hlt1
      have ht0id : (final.1[S.1.length]).id = S.2 := by
        have h2 := congrArg Prod.fst hns0
        simpa [nonScore_id, mkScoredRow_id] using h2
      have htsid : ∀ r ∈ ts, r.id ≠ (final.1[S.1.length]).id := by
        intro r hr
        rcases TriRel.mem_ns htri r hr with ⟨s2, hs2, hs2e⟩
        have h2 : r.id = s2.id := by
          have h3 := congrArg Prod.fst hs2e
          simpa [nonScore_id] using h3
        have h3 : s2.id < S.2 := hwf.2 s2 hs2
        rw [ht0id]
        omega
      have htail'id : ∀ r ∈ final.1.drop (S.1.length + 1),
          r.id ≠ (final.1[S.1.length]).id := by
        have hnd2 : ((final.1.drop S.1.length).map (fun r => r.id)).Nodup := by
          rw [List.map_drop]
          exact List.Nodup.sublist (List.drop_sublist _ _) hnd
        rw [htail, List.map_cons] at hnd2
        have hnd3 := List.nodup_cons.mp hnd2
        intro r hr hcon
        apply hnd3.1
        rw [← hcon]
        exact List.mem_map_of_mem _ hr
      have hfts : ts.find? (rowMatches rid sig) = none := TriRel.find?_none hP htri hf
      have hPt0 : rowMatches rid sig (final.1[S.1.length]) = true := by
        rw [rowMatches_congr rid sig _ _ hns0]
        exact mkScoredRow_matches S.2 rid t sig hnn1.1 hnn1.2
      have hfind2 : (ts ++ final.1.drop S.1.length).find? (rowMatches rid sig)
          = some (final.1[S.1.length]) := by
        have h5 : (ts ++ final.1.drop S.1.length).find? (rowMatches rid sig)
            = (final.1.drop S.1.length).find? (rowMatches rid sig) := by
          rw [List.find?_append, hfts]
          rfl
        rw [h5, htail, List.find?_cons, hPt0]
      have hupd : applyScoreFields (final.1[S.1.length]) (extract_score_fields sig) t
          = mkScoredRow S.2 rid t sig := by
        rw [applyScoreFields_congr _ _ _ _ hns0, applyScoreFields_mkScoredRow]
      have hstep2 : scoredStep rid t (ts ++ final.1.drop S.1.length, final.2) sig
          = ((ts ++ [applyScoreFields (final.1[S.1.length]) (extract_score_fields sig) t])
              ++ final.1.drop (S.1.length + 1), final.2) := by
        unfold scoredStep
        dsimp only
        rw [hfind2]
        dsimp only
        rw [List.map_append, map_update_ids_out _ _ _ _ htsid, htail, List.map_cons,
          if_pos (by simp), map_update_ids_out _ _ _ _ htail'id, List.append_assoc,
          List.singleton_append]
      rw [hstep2]
      have htake' : final.1.take (S.1.length + 1)
          = final.1.take S.1.length ++ [final.1[S.1.length]] := by
        rw [List.take_succ, List.getElem?_eq_getElem hlt1]
        rfl
      have htri' : TriRel (S.1 ++ [mkScoredRow S.2 rid t sig])
          (final.1.take S.1.length ++ [final.1[S.1.length]])
          (ts ++ [applyScoreFields (final.1[S.1.length]) (extract_score_fields sig) t]) := by
        refine TriRel.extend htri hns0 ?_
        left
        rw [hupd]
      have hcall := ih (S.1 ++ [mkScoredRow S.2 rid t sig], S.2 + 1) final
        (ts ++ [applyScoreFields (final.1[S.1.length]) (extract_score_fields sig) t])
        hnnrest hfold hwf' hnd (by
          dsimp only
          rw [show (S.1 ++ [mkScoredRow S.2 rid t sig]).length = S.1.length + 1 from by simp,
            htake']
          exact htri')
      rw [show (S.1 ++ [mkScoredRow S.2 rid t sig]).length = S.1.length + 1 from by simp]
        at hcall
      exact hcall

theorem scoredStep_match_mono (rid : Nat) (t : Str) (st : List Row × Nat) (sig sig' : Signal)
    (h : ∃ r ∈ st.1, rowMatches rid sig' r = true) :
    ∃ r ∈ (scoredStep rid t st sig).1, rowMatches rid sig' r = true := by
  rcases h with ⟨r, hr, hm⟩
  unfold scoredStep
  cases hf : st.1.find? (rowMatches rid sig) with
  | some m =>
    dsimp only
    refine ⟨if r.id == m.id then applyScoreFields r (extract_score_fields sig) t else r,
      List.mem_map_of_mem _ hr, ?_⟩
    by_cases hid : (r.id == m.id) = true
    · rw [if_pos hid,
        rowMatches_congr rid sig' _ r (applyScoreFields_nonScore r (extract_score_fields sig) t)]
      exact hm
    · rw [if_neg hid]
      exact hm
  | none =>
    dsimp only
    exact ⟨r, List.mem_append.mpr (Or.inl hr), hm⟩

theorem scoredStep_match_self (rid : Nat) (t : Str) (st : List Row × Nat) (sig : Signal)
    (hinst : sig.institution ≠ none) (htyp : sig.signal_type ≠ none) :
    ∃ r ∈ (scoredStep rid t st sig).1, rowMatches rid sig r = true := by
  unfold scoredStep
  cases hf : st.1.find? (rowMatches rid sig) with
  | some m =>
    dsimp only
    have hm : rowMatches rid sig m = true := List.find?_some hf
    refine ⟨if m.id == m.id then applyScoreFields m (extract_score_fields sig) t else m,
      List.mem_map_of_mem _ (List.mem_of_find?_eq_some hf), ?_⟩
    by_cases hid : (m.id == m.id) = true
    · rw [if_pos hid,
        rowMatches_congr rid sig _ m (applyScoreFields_nonScore m (extract_score_fields sig) t)]
      exact hm
    · rw [if_neg hid]
      exact hm
  | none =>
    dsimp only
    refine ⟨mkScoredRow st.2 rid t sig, ?_, mkScoredRow_matches st.2 rid t sig hinst htyp⟩
    exact List.mem_append.mpr (Or.inr (List.mem_singleton.mpr rfl))

theorem scoredFold_match_mono (rid : Nat) (t : Str) (sigs : List Signal) :
    ∀ (st : List Row × Nat) (sig' : Signal),
      (∃ r ∈ st.1, rowMatches rid sig' r = true) →
      ∃ r ∈ (sigs.foldl (scoredStep rid t) st).1, rowMatches rid sig' r = true := by
  induction sigs with
  | nil => intro st sig' h; exact h
  | cons sig rest ih =>
    intro st sig' h
    rw [List.foldl_cons]
    exact ih _ sig' (scoredStep_match_mono rid t st sig sig' h)

theorem scoredFold_match_all (rid : Nat) (t : Str) (sigs : List Signal)
    (hnn : ∀ sig ∈ sigs, sig.institution ≠ none ∧ sig.signal_type ≠ none) :
    ∀ (st : List Row × Nat), ∀ sig ∈ sigs,
      ∃ r ∈ (sigs.foldl (scoredStep rid t) st).1, rowMatches rid sig r = true := by
  induction sigs with
  | nil => intro st sig h; cases h
  | cons sig rest ih =>
    intro st sig' hmem
    rw [List.foldl_cons]
    rcases List.mem_cons.mp hmem with heq | hmem2
    · subst heq
      have h1 := scoredStep_match_self rid t st sig'
        (hnn sig' (List.mem_cons_self _ _)).1 (hnn sig' (List.mem_cons_self _ _)).2
      exact scoredFold_match_mono rid t rest _ sig' h1
    · exact ih (fun s2 hs2 => hnn s2 (List.mem_cons_of_mem _ hs2)) _ sig' hmem2

theorem write_scored_run_eval_found (report : ScoredReport) (db : DB) (r0 : Run)
    (hfound : db.runs.find? (fun r => r.output_file == report.source_report) = some r0) :
    write_scored_run report db
      = { runs := db.runs
        , signals := (report.signals.foldl (scoredStep r0.id report.timestamp)
            (db.signals, db.nextSigId)).1
        , nextRunId := db.nextRunId
        , nextSigId := (report.signals.foldl (scoredStep r0.id report.timestamp)
            (db.signals, db.nextSigId)).2 } := by
  unfold write_scored_run
  rw [hfound]

theorem write_scored_run_eval_new (report : ScoredReport) (db : DB)
    (hfound : db.runs.find? (fun r => r.output_file == report.source_report) = none) :
    write_scored_run report db
      = { runs := db.runs ++ [placeholderRun db.nextRunId report]
        , signals := (report.signals.foldl (scoredStep db.nextRunId report.timestamp)
            (db.signals, db.nextSigId)).1
        , nextRunId := db.nextRunId + 1
        , nextSigId := (report.signals.foldl (scoredStep db.nextRunId report.timestamp)
            (db.signals, db.nextSigId)).2 } := by
  unfold write_scored_run
  rw [hfound]

theorem take_map_nonScore_eq (L F : List Row)
    (ext : List (Nat × Nat × Option Str × Option Str × Option Str × Option Str × Option Str
      × Option Str × Option Str × Option Str × Option Str × Option Str))
    (h : F.map nonScore = L.map nonScore ++ ext) :
    (F.take L.length).map nonScore = L.map nonScore := by
  rw [List.map_take, h]
  rw [show L.length = (L.map nonScore).length from (List.length_map _ _).symm, List.take_left]

/-- **C1** (amended): for a well-formed store and a scored report whose
signals all carry a non-null institution and signal_type, `write_scored_run`
is idempotent: a second run with the identical report leaves the store
(runs, signals, counters) exactly as the first left it, the row count is
unchanged, and every report signal matches an existing row of the
once-written store under the
`(run_id, institution, signal_type, COALESCE(signal_date,''),
COALESCE(source_url,''))` predicate.  Signals with a NULL institution or
signal_type never match (SQL `=` on NULL) and are re-inserted by every run —
see the counterexample. -/
theorem c1_write_scored_run_idempotent (report : ScoredReport) (db : DB)
    (hwf : DBWF db)
    (hnn : ∀ sig ∈ report.signals, sig.institution ≠ none ∧ sig.signal_type ≠ none) :
    write_scored_run report (write_scored_run report db) = write_scored_run report db
    ∧ (write_scored_run report (write_scored_run report db)).signals.length
        = (write_scored_run report db).signals.length
    ∧ ∃ run, (write_scored_run report db).runs.find?
          (fun r => r.output_file == report.source_report) = some run
        ∧ ∀ sig ∈ report.signals, ∃ row ∈ (write_scored_run report db).signals,
            rowMatches run.id sig row = true := by
  have hwfst : WFst (db.signals, db.nextSigId) := hwf
  cases hfound : db.runs.find? (fun r => r.output_file == report.source_report) with
  | some r0 =>
    have hw1 := write_scored_run_eval_found report db r0 hfound
    have hFwf : WFst (report.signals.foldl (scoredStep r0.id report.timestamp)
        (db.signals, db.nextSigId)) :=
      scoredFold_wf _ _ _ _ hwfst
    rcases scoredFold_stab r0.id report.timestamp report.signals (db.signals, db.nextSigId)
      with ⟨ext, hsmap, hsle, hsid⟩
    have htri : TriRel db.signals
        ((report.signals.foldl (scoredStep r0.id report.timestamp)
          (db.signals, db.nextSigId)).1.take db.signals.length)
        ((report.signals.foldl (scoredStep r0.id report.timestamp)
          (db.signals, db.nextSigId)).1.take db.signals.length) :=
      TriRel.of_prefix (take_map_nonScore_eq db.signals _ ext hsmap)
    have hreplay := scoredFold_bisim r0.id report.timestamp report.signals
      (db.signals, db.nextSigId)
      (report.signals.foldl (scoredStep r0.id report.timestamp) (db.signals, db.nextSigId))
      ((report.signals.foldl (scoredStep r0.id report.timestamp)
        (db.signals, db.nextSigId)).1.take db.signals.length)
      hnn rfl hwfst hFwf.1 htri
    rw [List.take_append_drop] at hreplay
    have hfound2 : (write_scored_run report db).runs.find?
        (fun r => r.output_file == report.source_report) = some r0 := by
      rw [hw1]
      exact hfound
    have hw2 := write_scored_run_eval_found report (write_scored_run report db) r0 hfound2
    have hmain : write_scored_run report (write_scored_run report db)
        = write_scored_run report db := by
      rw [hw2]
      conv_lhs => rw [hw1]
      dsimp only
      rw [hreplay]
      rw [hw1]
    refine ⟨hmain, by rw [hmain], ⟨r0, hfound2, ?_⟩⟩
    intro sig hsig
    have h2 := scoredFold_match_all r0.id report.timestamp report.signals hnn
      (db.signals, db.nextSigId) sig hsig
    rw [hw1]
    exact h2
  | none =>
    have hw1 := write_scored_run_eval_new report db hfound
    have hFwf : WFst (report.signals.foldl (scoredStep db.nextRunId report.timestamp)
        (db.signals, db.nextSigId)) :=
      scoredFold_wf _ _ _ _ hwfst
    rcases scoredFold_stab db.nextRunId report.timestamp report.signals
      (db.signals, db.nextSigId) with ⟨ext, hsmap, hsle, hsid⟩
    have htri : TriRel db.signals
        ((report.signals.foldl (scoredStep db.nextRunId report.timestamp)
          (db.signals, db.nextSigId)).1.take db.signals.length)
        ((report.signals.foldl (scoredStep db.nextRunId report.timestamp)
          (db.signals, db.nextSigId)).1.take db.signals.length) :=
      TriRel.of_prefix (take_map_nonScore_eq db.signals _ ext hsmap)
    have hreplay := scoredFold_bisim db.nextRunId report.timestamp report.signals
      (db.signals, db.nextSigId)
      (report.signals.foldl (scoredStep db.nextRunId report.timestamp)
        (db.signals, db.nextSigId))
      ((report.signals.foldl (scoredStep db.nextRunId report.timestamp)
        (db.signals, db.nextSigId)).1.take db.signals.length)
      hnn rfl hwfst hFwf.1 htri
    rw [List.take_append_drop] at hreplay
    have hfound2 : (write_scored_run report db).runs.find?
        (fun r => r.output_file == report.source_report)
        = some (placeholderRun db.nextRunId report) := by
      rw [hw1]
      dsimp only
      rw [List.find?_append, hfound]
      simp [placeholderRun]
    have hw2 := write_scored_run_eval_found report (write_scored_run report db)
      (placeholderRun db.nextRunId report) hfound2
    have hph_id : (placeholderRun db.nextRunId report).id = db.nextRunId := rfl
    rw [hph_id] at hw2
    have hmain : write_scored_run report (write_scored_run report db)
        = write_scored_run report db := by
      rw [hw2]
      conv_lhs => rw [hw1]
      dsimp only
      rw [hreplay]
      rw [hw1]
    refine ⟨hmain, by rw [hmain], ⟨placeholderRun db.nextRunId report, hfound2, ?_⟩⟩
    intro sig hsig
    have h2 := scoredFold_match_all db.nextRunId report.timestamp report.signals hnn
      (db.signals, db.nextSigId) sig hsig
    rw [hw1, hph_id]
    exact h2

/-- Witness for C1: a concrete well-formed store and a one-signal report with
non-null institution and signal_type; the second write reproduces the first. -/
theorem c1_write_scored_run_idempotent_witness :
    write_scored_run c1Report (write_scored_run c1Report c1Db)
      = write_scored_run c1Report c1Db :=
  (c1_write_scored_run_idempotent c1Report c1Db (by decide) (by decide)).1

/-- Counterexample for C1 as stated: a scored signal with a NULL institution
never matches any row (SQL `=` against NULL is never true, and the code uses
plain `=` for institution and signal_type, COALESCE only for date and url),
so every pass re-inserts it: the first write yields 1 row, the second 2 —
row count is not invariant and the final table differs. -/
theorem c1_write_scored_run_counterexample :
    (write_scored_run c1NullReport c1Db).signals.length = 1
    ∧ (write_scored_run c1NullReport (write_scored_run c1NullReport c1Db)).signals.length = 2
    ∧ DBWF c1Db
    ∧ c1NullSig.institution = none := by
  refine ⟨by decide, by decide, by decide, rfl⟩
